import Mathlib

/-!
Verification development for the `unity-guid-corrector` repository
(single source file `unity-guid-corrector.py`).

The script builds a GUID mapping by correlating Unity `.meta` descriptor
files between a "decompiled" tree and an "actual" package tree, then applies
the mapping as literal substring replacements over the project tree.

This file contains a shallow embedding of the program:
 * file contents are `List Char`;
 * Python `str.replace` is modelled by `pyReplace` (leftmost,
   non-overlapping, all occurrences);
 * the regex search `guid:\s*([a-fA-F0-9]{32})` is modelled by
   `searchGuid` / `matchGuidAt` (the character classes involved are
   disjoint, so the greedy `\s*` never backtracks and the first match is
   determined by the leftmost matching start position);
 * Python `dict` insertion (update-in-place, preserving insertion order)
   is modelled by `dictInsert`;
 * the filesystem is a record of directory-existence flags and traversal
   lists; reading a file that raises an exception is a `none` content;
   a failing `write_text` is a `writable := false` flag;
 * `logging` calls are accumulated in a `List LogEntry`.

All definitions are executable; theorems about the claims of the
specification follow after the definitions.
-/

/-! ### Characters and character classes -/

abbrev Chars := List Char

/-- The character class `[a-fA-F0-9]` of the GUID regex. -/
def hexChar (c : Char) : Bool :=
  decide (('0' ≤ c ∧ c ≤ '9') ∨ ('a' ≤ c ∧ c ≤ 'f') ∨ ('A' ≤ c ∧ c ≤ 'F'))

/-- A lowercase hexadecimal character (the form every stored GUID char has). -/
def isLowerHex (c : Char) : Bool :=
  decide (('0' ≤ c ∧ c ≤ '9') ∨ ('a' ≤ c ∧ c ≤ 'f'))

/-- The regex class `\s` (ASCII part; the inputs at hand are ASCII). -/
def isSpaceChar (c : Char) : Bool :=
  decide (c = ' ' ∨ c = '\t' ∨ c = '\n' ∨ c = '\r' ∨ c = '\x0b' ∨ c = '\x0c')

/-- Python `str.lower` on an ASCII character. -/
def pyLower (c : Char) : Char :=
  if 'A' ≤ c ∧ c ≤ 'Z' then Char.ofNat (c.toNat + 32) else c

/-! ### Occurrences of a pattern in a character list -/

/-- `q` occurs in `s` starting at index `i`. -/
def occursAt (q s : Chars) (i : ℕ) : Prop :=
  (s.drop i).take q.length = q

instance (q s : Chars) (i : ℕ) : Decidable (occursAt q s i) := by
  unfold occursAt; infer_instance

/-- The character at index `j` of `cs`, if any, is not a hex character. -/
def nonHexAt (cs : Chars) (j : ℕ) : Bool :=
  (cs[j]?).all (fun d => !hexChar d)

/-- An occurrence of `o` at `i` is isolated: the characters (if any)
immediately before and after it are not hex characters. -/
def flankOK (o c : Chars) (i : ℕ) : Prop :=
  (i = 0 ∨ nonHexAt c (i - 1) = true) ∧ nonHexAt c (i + o.length) = true

instance (o c : Chars) (i : ℕ) : Decidable (flankOK o c i) := by
  unfold flankOK; infer_instance

/-- Every occurrence of `o` in `c` is isolated by non-hex characters. -/
def HisoP (o c : Chars) : Prop :=
  ∀ i, i < c.length → occursAt o c i → flankOK o c i

instance (o c : Chars) : Decidable (HisoP o c) := by
  unfold HisoP; infer_instance

/-- `o` occurs somewhere in `c` (as a contiguous sublist). -/
def Contains (o c : Chars) : Prop :=
  ∃ i, i < c.length + 1 ∧ occursAt o c i

instance (o c : Chars) : Decidable (Contains o c) :=
  decidable_of_iff ((List.range (c.length + 1)).any (fun i => decide (occursAt o c i)) = true)
    (by simp [Contains, List.any_eq_true, List.mem_range])

/-! ### Python `str.replace` -/

/-- Scanner for `str.replace` with a non-empty pattern `old`: at skip-count
`0` it tests whether `old` starts here; on a match it emits `new` and skips
the remaining `old.length - 1` characters, otherwise it copies one character.
This is exactly Python's leftmost non-overlapping replacement. -/
def replGo (old new : Chars) : ℕ → Chars → Chars
  | _, [] => []
  | 0, c :: rest =>
    if old.isPrefixOf (c :: rest) then new ++ replGo old new (old.length - 1) rest
    else c :: replGo old new 0 rest
  | k + 1, _ :: rest => replGo old new k rest

/-- `str.replace` for a non-empty pattern. -/
def pyReplaceP (old new s : Chars) : Chars :=
  replGo old new 0 s

/-- Python `content.replace(old, new)`.  For an empty `old`, Python inserts
`new` before every character and at the end. -/
def pyReplace (s old new : Chars) : Chars :=
  match old with
  | [] => new ++ s.flatMap (fun c => c :: new)
  | _ :: _ => pyReplaceP old new s

/-- `for old_guid, new_guid in self.guid_mappings.items(): content = content.replace(...)`
(lines 123–124 of the source): sequential application of all mapping pairs. -/
def applyMappings (mappings : List (Chars × Chars)) (content : Chars) : Chars :=
  mappings.foldl (fun c p => pyReplace c p.1 p.2) content

/-! ### The regex `guid:\s*([a-fA-F0-9]{32})` -/

/-- The literal part of the pattern. -/
def tagChars : Chars := ['g', 'u', 'i', 'd', ':']

/-- Match the pattern at the start of `s`, returning the captured group.
The classes `\s` and `[a-fA-F0-9]` are disjoint, so the greedy `\s*`
consumes the maximal whitespace run and never backtracks: the match at a
given start position is exactly this function. -/
def matchGuidAt (s : Chars) : Option Chars :=
  if tagChars.isPrefixOf s then
    let g := ((s.drop tagChars.length).dropWhile isSpaceChar).take 32
    if g.length = 32 ∧ g.all hexChar then some g else none
  else none

/-- `re.search`: the match at the leftmost matching start position. -/
def searchGuid : Chars → Option Chars
  | [] => none
  | c :: rest =>
    match matchGuidAt (c :: rest) with
    | some g => some g
    | none => searchGuid rest

/-! ### The program state: files, logging, filesystem -/

/-- A descriptor (`.meta`) file as seen by the script: its path (used in log
messages), its filename stem (`Path.stem`, the correlation key), and its
content — `none` when `read_text()` raises. -/
structure MetaFile where
  path : String
  stem : String
  content : Option Chars
deriving DecidableEq

/-- A candidate target file under the project tree: its path (extension
matching is on the path's tail, as `rglob("*<ext>")` matches filenames
ending in the extension), its content (`none` when reading raises) and
whether `write_text` would succeed. -/
structure TargetFile where
  path : String
  content : Option Chars
  writable : Bool
deriving DecidableEq

/-- The log records produced by the script (console/progress output is
presentation only and not modelled). -/
inductive LogEntry
  | pathMissing (desc : String)
  | noMetaFiles (desc : String)
  | errorReadingMeta (path : String)
  | mapped (stem : String) (oldG newG : Chars)
  | updatedFile (path : String)
  | errorUpdating (path : String)
  | noMappingsFound
deriving DecidableEq

/-- The filesystem as the script observes it: existence of the three
configured directories and the traversal (`rglob`) orders of the relevant
files beneath them.  `decompiledMetas`/`actualMetas` are the
`rglob("*.meta")` lists; `projectFiles` lists every file under the project
tree. -/
structure FS where
  decompiledExists : Bool
  actualExists : Bool
  projectExists : Bool
  decompiledMetas : List MetaFile
  actualMetas : List MetaFile
  projectFiles : List TargetFile
deriving DecidableEq

/-- `extract_guid_from_meta` (lines 58–66): on a read failure, log and
return `None`; otherwise return the first regex match, lowercased, or
`None` (without logging) when there is no match. -/
def extract_guid_from_meta (m : MetaFile) : Option Chars × List LogEntry :=
  match m.content with
  | none => (none, [.errorReadingMeta m.path])
  | some text =>
    match searchGuid text with
    | some g => (some (g.map pyLower), [])
    | none => (none, [])

/-- Python `dict` assignment `d[k] = v`: an existing key keeps its position
and gets the new value; a new key is appended. -/
def dictInsert (d : List (Chars × Chars)) (k v : Chars) : List (Chars × Chars) :=
  match d with
  | [] => [(k, v)]
  | (k1, v1) :: rest => if k1 = k then (k1, v) :: rest else (k1, v1) :: dictInsert rest k v

/-- Python `dict` lookup. -/
def dictLookup (d : List (Chars × Chars)) (k : Chars) : Option Chars :=
  match d with
  | [] => none
  | (k1, v1) :: rest => if k1 = k then some v1 else dictLookup rest k

/-- The loop body of `build_guid_mappings` (lines 91–113): find the first
`.meta` file in the actual tree whose name is `<stem>.meta`, extract both
GUIDs, and on success record the mapping and log the correlation.  (The
outer `try` cannot fire in this model: only `extract_guid_from_meta` deals
with fallible operations, and it handles its own exceptions.) -/
def buildStep (actualMetas : List MetaFile) (acc : List (Chars × Chars) × List LogEntry)
    (dm : MetaFile) : List (Chars × Chars) × List LogEntry :=
  match actualMetas.find? (fun m => m.stem == dm.stem) with
  | none => acc
  | some am =>
    let dg := extract_guid_from_meta dm
    let ag := extract_guid_from_meta am
    match dg.1, ag.1 with
    | some d, some a => (dictInsert acc.1 d a, acc.2 ++ dg.2 ++ ag.2 ++ [.mapped dm.stem d a])
    | _, _ => (acc.1, acc.2 ++ dg.2 ++ ag.2)

/-- `build_guid_mappings` (lines 68–115): fold the loop body over the
decompiled tree's `.meta` files in traversal order. -/
def build_guid_mappings (decompiledMetas actualMetas : List MetaFile) :
    List (Chars × Chars) × List LogEntry :=
  decompiledMetas.foldl (buildStep actualMetas) ([], [])

/-- The correlation attempted for one decompiled descriptor, when it
succeeds: the pair (decompiled GUID, actual GUID) that
`build_guid_mappings` records for it. -/
def corrOf (actualMetas : List MetaFile) (dm : MetaFile) : Option (Chars × Chars) :=
  match actualMetas.find? (fun m => m.stem == dm.stem) with
  | none => none
  | some am =>
    match (extract_guid_from_meta dm).1, (extract_guid_from_meta am).1 with
    | some d, some a => some (d, a)
    | _, _ => none

/-- The effect of one loop iteration of `build_guid_mappings` on the
mapping table alone. -/
def corrStep (actualMetas : List MetaFile) (t : List (Chars × Chars)) (dm : MetaFile) :
    List (Chars × Chars) :=
  match corrOf actualMetas dm with
  | some p => dictInsert t p.1 p.2
  | none => t

/-- The outcome of `replace_guids_in_file` on one file: the file's new
state, the returned flag, the log entries, and whether a successful
`write_text` happened. -/
structure ReplaceOut where
  file : TargetFile
  modified : Bool
  log : List LogEntry
  wrote : Bool
deriving DecidableEq

/-- `replace_guids_in_file` (lines 117–134): read the file, apply every
mapping pair with `str.replace`, and write back only if the content
changed.  Any exception (read or write) is caught, logged, and yields
`False`. -/
def replace_guids_in_file (mappings : List (Chars × Chars)) (f : TargetFile) : ReplaceOut :=
  match f.content with
  | none => ⟨f, false, [.errorUpdating f.path], false⟩
  | some content =>
    let newContent := applyMappings mappings content
    if newContent ≠ content then
      if f.writable then
        ⟨{ f with content := some newContent }, true, [.updatedFile f.path], true⟩
      else
        ⟨f, false, [.errorUpdating f.path], false⟩
    else ⟨f, false, [], false⟩

/-- The extension allow-list of `collect_target_files` (line 142). -/
def extensions : List String := [".meta", ".unity", ".asset", ".prefab", ".mat"]

/-- `rglob(f"*{ext}")` membership: the path ends with the extension. -/
def matchesExt (f : TargetFile) (ext : String) : Bool :=
  ext.data.isSuffixOf f.path.data

/-- `collect_target_files` (lines 136–152): for each extension in order,
append all project files matching it. -/
def collect_target_files (projectFiles : List TargetFile) : List TargetFile :=
  extensions.foldl (fun acc ext => acc ++ projectFiles.filter (fun f => matchesExt f ext)) []

/-- `validate_paths` (lines 31–56): check, in order, that each directory
exists and contains at least one `.meta` file; the first failure logs and
returns `False`. -/
def validate_paths (fs : FS) : Bool × List LogEntry :=
  if ¬ fs.decompiledExists then (false, [.pathMissing "Decompiled package path"])
  else if fs.decompiledMetas.isEmpty then (false, [.noMetaFiles "Decompiled package path"])
  else if ¬ fs.actualExists then (false, [.pathMissing "Actual package path"])
  else if fs.actualMetas.isEmpty then (false, [.noMetaFiles "Actual package path"])
  else if ¬ fs.projectExists then (false, [.pathMissing "Unity project path"])
  else if ¬ fs.projectFiles.any (fun f => matchesExt f ".meta") then
    (false, [.noMetaFiles "Unity project path"])
  else (true, [])

/-- Aggregate state of the substitution loop of `correct_guids`
(lines 173–179): counts, the post-state of the processed files, the log,
and the paths actually written. -/
structure SubstOut where
  processed : ℕ
  modified : ℕ
  files : List TargetFile
  log : List LogEntry
  wrotePaths : List String
deriving DecidableEq

/-- One iteration of the substitution loop. -/
def substStep (mappings : List (Chars × Chars)) (acc : SubstOut) (f : TargetFile) : SubstOut :=
  let r := replace_guids_in_file mappings f
  ⟨acc.processed + 1, acc.modified + (if r.modified then 1 else 0), acc.files ++ [r.file],
    acc.log ++ r.log, acc.wrotePaths ++ (if r.wrote then [f.path] else [])⟩

/-- The substitution loop over the collected target files. -/
def runSubstitution (mappings : List (Chars × Chars)) (targets : List TargetFile) : SubstOut :=
  targets.foldl (substStep mappings) ⟨0, 0, [], [], []⟩

/-- The observable outcome of a whole run: the returned counts, the
post-state of the collected target files (empty when collection never
happened), the log, and the paths written. -/
structure RunOut where
  processed : ℕ
  modified : ℕ
  targets : List TargetFile
  log : List LogEntry
  wrotePaths : List String
deriving DecidableEq

/-- `correct_guids` (lines 154–185): validate, build the mapping table,
halt on an empty table, otherwise collect the targets and run the
substitution loop. -/
def correct_guids (fs : FS) : RunOut :=
  let v := validate_paths fs
  if ¬ v.1 then ⟨0, 0, [], v.2, []⟩
  else
    let bm := build_guid_mappings fs.decompiledMetas fs.actualMetas
    if bm.1.isEmpty then ⟨0, 0, [], v.2 ++ bm.2 ++ [.noMappingsFound], []⟩
    else
      let targets := collect_target_files fs.projectFiles
      let s := runSubstitution bm.1 targets
      ⟨s.processed, s.modified, s.files, v.2 ++ bm.2 ++ s.log, s.wrotePaths⟩

/-! ### Well-formedness of a mapping table -/

/-- Both components are 32-character hexadecimal strings — the shape every
pair recorded by `build_guid_mappings` has. -/
def wfPair (p : Chars × Chars) : Prop :=
  p.1.length = 32 ∧ p.2.length = 32 ∧ p.1.all hexChar = true ∧ p.2.all hexChar = true

instance (p : Chars × Chars) : Decidable (wfPair p) := by
  unfold wfPair; infer_instance

/-- A well-formed, non-interfering mapping table: well-formed pairs, no old
GUID is also a new GUID (the spec's non-interference assumption), and keys
are distinct (automatic for a Python `dict`). -/
def WFmap (M : List (Chars × Chars)) : Prop :=
  (∀ p ∈ M, wfPair p) ∧ (∀ p ∈ M, ∀ q ∈ M, p.1 ≠ q.2) ∧ (M.map Prod.fst).Nodup

instance (M : List (Chars × Chars)) : Decidable (WFmap M) := by
  unfold WFmap; infer_instance

/-! ### Basic occurrence lemmas -/

theorem occursAt_zero (q s : Chars) : occursAt q s 0 ↔ q <+: s := by
  rw [occursAt, List.drop_zero, List.prefix_iff_eq_take]
  exact eq_comm

theorem occursAt_cons_succ (q s : Chars) (c : Char) (i : ℕ) :
    occursAt q (c :: s) (i + 1) ↔ occursAt q s i := by
  rw [occursAt, occursAt, List.drop_succ_cons]

theorem occursAt_bound {q s : Chars} {i : ℕ} (hq : q ≠ []) (h : occursAt q s i) :
    i + q.length ≤ s.length := by
  rw [occursAt] at h
  have hlen := congrArg List.length h
  rw [List.length_take, List.length_drop] at hlen
  have : 0 < q.length := List.length_pos.mpr hq
  omega

theorem occursAt_lt {q s : Chars} {i : ℕ} (hq : q ≠ []) (h : occursAt q s i) :
    i < s.length := by
  have := occursAt_bound hq h
  have : 0 < q.length := List.length_pos.mpr hq
  omega

theorem occursAt_get {q s : Chars} {i : ℕ} (h : occursAt q s i) :
    ∀ j, j < q.length → s[i + j]? = q[j]? := by
  intro j hj
  rw [occursAt] at h
  calc s[i + j]? = (s.drop i)[j]? := (List.getElem?_drop s i j).symm
    _ = ((s.drop i).take q.length)[j]? := by rw [List.getElem?_take, if_pos hj]
    _ = q[j]? := by rw [h]

theorem occursAt_of_get {q s : Chars} {i : ℕ}
    (h : ∀ j, j < q.length → s[i + j]? = q[j]?) : occursAt q s i := by
  rw [occursAt]
  apply List.ext_getElem?
  intro j
  by_cases hj : j < q.length
  · rw [List.getElem?_take, if_pos hj, List.getElem?_drop, h j hj]
  · have h1 : ((s.drop i).take q.length)[j]? = none := by
      apply List.getElem?_eq_none
      have := List.length_take q.length (s.drop i)
      omega
    have h2 : q[j]? = none := List.getElem?_eq_none (by omega)
    rw [h1, h2]

theorem occursAt_unique {q w s : Chars} {i : ℕ} (hq : occursAt q s i)
    (hw : occursAt w s i) (hlen : q.length = w.length) : q = w := by
  rw [occursAt] at hq hw
  rw [← hq, ← hw, hlen]

theorem occursAt_append_shift {q t : Chars} {i : ℕ} (u : Chars) (h : occursAt q t i) :
    occursAt q (u ++ t) (u.length + i) := by
  rw [occursAt] at h ⊢
  rw [List.drop_append_eq_append_drop, List.drop_of_length_le (by omega)]
  simpa [Nat.add_sub_cancel_left] using h

theorem occursAt_append_extract {q u t : Chars} {i : ℕ} (hi : u.length ≤ i)
    (h : occursAt q (u ++ t) i) : occursAt q t (i - u.length) := by
  rw [occursAt] at h ⊢
  rw [List.drop_append_eq_append_drop, List.drop_of_length_le hi] at h
  simpa using h

theorem allHex_get {q : Chars} (hq : q.all hexChar = true) {j : ℕ} {d : Char}
    (h : q[j]? = some d) : hexChar d = true := by
  rw [List.all_eq_true] at hq
  exact hq d (List.getElem?_mem h)

theorem nonhex_not_covered {s q : Chars} {j i : ℕ} {d : Char}
    (hd : s[j]? = some d) (hnh : hexChar d = false) (hq : q.all hexChar = true)
    (hocc : occursAt q s i) (h1 : i ≤ j) (h2 : j < i + q.length) : False := by
  have := occursAt_get hocc (j - i) (by omega)
  rw [show i + (j - i) = j by omega] at this
  rw [hd] at this
  have := allHex_get hq this.symm
  rw [hnh] at this
  exact Bool.false_ne_true this

theorem isPrefixOf_eq (l1 l2 : Chars) : l1.isPrefixOf l2 = true ↔ l1 <+: l2 :=
  List.isPrefixOf_iff_prefix

theorem nilIsPrefix (l : Chars) : [] <+: l :=
  ⟨l, rfl⟩

/-! ### Unfolding equations for `pyReplaceP` -/

theorem replGo_skip (old new : Chars) (u t : Chars) :
    replGo old new u.length (u ++ t) = replGo old new 0 t := by
  induction u with
  | nil => rfl
  | cons x u ih => simpa only [List.length_cons, List.cons_append, replGo] using ih

theorem pyReplaceP_nil (old new : Chars) : pyReplaceP old new [] = [] := rfl

theorem pyReplaceP_cons_neg {old : Chars} (new : Chars) {c : Char} {rest : Chars}
    (h : ¬ old <+: (c :: rest)) :
    pyReplaceP old new (c :: rest) = c :: pyReplaceP old new rest := by
  have hb : old.isPrefixOf (c :: rest) = false := by
    rw [Bool.eq_false_iff]
    intro hx
    exact h ((isPrefixOf_eq old (c :: rest)).mp hx)
  show replGo old new 0 (c :: rest) = c :: replGo old new 0 rest
  rw [replGo, hb]
  simp

theorem pyReplaceP_append {old : Chars} (new : Chars) (hne : old ≠ []) (t : Chars) :
    pyReplaceP old new (old ++ t) = new ++ pyReplaceP old new t := by
  match old, hne with
  | o :: os, _ =>
    have hb : (o :: os).isPrefixOf (o :: (os ++ t)) = true := by
      rw [isPrefixOf_eq]
      exact ⟨t, rfl⟩
    show replGo (o :: os) new 0 (o :: (os ++ t)) = new ++ replGo (o :: os) new 0 t
    rw [replGo, if_pos hb]
    have hskip := replGo_skip (o :: os) new os t
    simp only [List.length_cons, Nat.add_sub_cancel]
    rw [hskip]

/-- Induction principle matching the recursion of `pyReplaceP`: a list is
empty, starts with a character at which `old` does not match, or starts
with a full copy of `old`. -/
theorem replace_rec_ind (old : Chars) (hne : old ≠ []) (P : Chars → Prop) (h0 : P [])
    (h1 : ∀ c rest, ¬ old <+: (c :: rest) → P rest → P (c :: rest))
    (h2 : ∀ t, P t → P (old ++ t)) : ∀ s, P s := by
  have main : ∀ N s, s.length ≤ N → P s := by
    intro N
    induction N with
    | zero =>
      intro s hs
      have h : s = [] := List.length_eq_zero.mp (Nat.le_zero.mp hs)
      rw [h]; exact h0
    | succ N ih =>
      intro s hs
      match s with
      | [] => exact h0
      | c :: rest =>
        by_cases hp : old <+: (c :: rest)
        · rcases hp with ⟨t, ht⟩
          have hol : 0 < old.length := List.length_pos.mpr hne
          have hlen : t.length ≤ N := by
            have h2l := congrArg List.length ht
            simp only [List.length_append, List.length_cons] at h2l
            simp only [List.length_cons] at hs
            omega
          rw [← ht]
          exact h2 t (ih t hlen)
        · refine h1 c rest hp (ih rest ?_)
          simp only [List.length_cons] at hs
          omega
  exact fun s => main s.length s le_rfl

/-! ### Flank helpers -/

theorem nonHexAt_cons_succ (c : Char) (cs : Chars) (j : ℕ) :
    nonHexAt (c :: cs) (j + 1) = nonHexAt cs j := by
  simp [nonHexAt]

theorem nonHexAt_of_le {cs : Chars} {j : ℕ} (h : cs.length ≤ j) : nonHexAt cs j = true := by
  simp [nonHexAt, List.getElem?_eq_none h]

theorem nonHexAt_some {cs : Chars} {j : ℕ} {d : Char} (hg : cs[j]? = some d)
    (h : nonHexAt cs j = true) : hexChar d = false := by
  rw [nonHexAt, hg] at h
  simpa using h

theorem nonHexAt_of_getElem? {cs : Chars} {j : ℕ}
    (h : ∀ d, cs[j]? = some d → hexChar d = false) : nonHexAt cs j = true := by
  rw [nonHexAt]
  match hg : cs[j]? with
  | none => rfl
  | some d => simpa using h d hg

theorem nonHexAt_append_shift (u t : Chars) (j : ℕ) :
    nonHexAt (u ++ t) (u.length + j) = nonHexAt t j := by
  rw [nonHexAt, nonHexAt, List.getElem?_append_right (by omega), Nat.add_sub_cancel_left]

/-! ### Isolation restricted to sublists -/

theorem HisoP_tail {o : Chars} {c : Char} {rest : Chars} (h : HisoP o (c :: rest)) :
    HisoP o rest := by
  intro i hi hocc
  have hocc2 : occursAt o (c :: rest) (i + 1) := (occursAt_cons_succ _ _ _ _).mpr hocc
  obtain ⟨hl, hr⟩ := h (i + 1) (by simp only [List.length_cons]; omega) hocc2
  constructor
  · match i with
    | 0 => exact Or.inl rfl
    | i + 1 =>
      refine Or.inr ?_
      rcases hl with h0 | hnh
      · omega
      · rw [show i + 1 + 1 - 1 = i + 1 by omega] at hnh
        rw [nonHexAt_cons_succ] at hnh
        simpa using hnh
  · rw [show i + 1 + o.length = (i + o.length) + 1 by omega, nonHexAt_cons_succ] at hr
    exact hr

theorem HisoP_drop {o t : Chars} (hne : o ≠ []) (hhex : o.all hexChar = true)
    (h : HisoP o (o ++ t)) : HisoP o t := by
  have hol : 0 < o.length := List.length_pos.mpr hne
  intro i hi hocc
  have hocc2 : occursAt o (o ++ t) (o.length + i) := occursAt_append_shift o hocc
  have hlt : o.length + i < (o ++ t).length := by
    simp only [List.length_append]; omega
  obtain ⟨hl, hr⟩ := h _ hlt hocc2
  constructor
  · match i with
    | 0 =>
      exfalso
      rcases hl with h0 | hnh
      · omega
      · have hg : (o ++ t)[o.length - 1]? = o[o.length - 1]? := by
          rw [List.getElem?_append, if_pos (by omega)]
        have hsome : o[o.length - 1]? = some (o.getLast hne) := by
          rw [List.getLast_eq_getElem]
          exact List.getElem?_eq_getElem (by omega)
        rw [show o.length + 0 - 1 = o.length - 1 by omega] at hnh
        have hnx := nonHexAt_some (hg.trans hsome) hnh
        have hx := allHex_get hhex hsome
        rw [hnx] at hx
        exact Bool.false_ne_true hx
    | i + 1 =>
      refine Or.inr ?_
      rcases hl with h0 | hnh
      · omega
      · rw [show o.length + (i + 1) - 1 = o.length + i by omega, nonHexAt_append_shift] at hnh
        simpa using hnh
  · rw [show o.length + i + o.length = o.length + (i + o.length) by omega,
      nonHexAt_append_shift] at hr
    exact hr

/-! ### Length and head preservation -/

theorem pyReplaceP_length {old : Chars} (hne : old ≠ []) (new : Chars)
    (hlen : new.length = old.length) :
    ∀ s : Chars, (pyReplaceP old new s).length = s.length := by
  refine replace_rec_ind old hne _ (by rw [pyReplaceP_nil]) ?_ ?_
  · intro c rest hp ih
    rw [pyReplaceP_cons_neg new hp]
    simp [ih]
  · intro t ih
    rw [pyReplaceP_append new hne t]
    simp [ih, hlen]

theorem pyReplaceP_head {old : Chars} (new : Chars) {s : Chars} (hp : ¬ old <+: s) :
    (pyReplaceP old new s).head? = s.head? := by
  match s with
  | [] => rfl
  | c :: rest =>
    rw [pyReplaceP_cons_neg new hp]
    simp

theorem prefix_of_append_le {q a b : Chars} (h : q <+: a ++ b) (hlen : q.length ≤ a.length) :
    q <+: a := by
  rw [List.prefix_iff_eq_take] at h ⊢
  rwa [List.take_append_eq_append_take, Nat.sub_eq_zero_of_le hlen, List.take_zero,
    List.append_nil] at h

theorem pyReplaceP_get_zero {old : Chars} (new : Chars) {s : Chars} (hp : ¬ old <+: s) :
    (pyReplaceP old new s)[0]? = s[0]? := by
  match s with
  | [] => rw [pyReplaceP_nil]
  | c :: rest =>
    rw [pyReplaceP_cons_neg new hp]
    simp

/-- The head of the remainder after a replaced block is not a hex
character (isolation of the block's occurrence). -/
theorem tail_head_nonhex {old t : Chars} (hne : old ≠ [])
    (hiso : HisoP old (old ++ t)) : nonHexAt t 0 = true := by
  have hol : 0 < old.length := List.length_pos.mpr hne
  have hocc : occursAt old (old ++ t) 0 := (occursAt_zero _ _).mpr ⟨t, rfl⟩
  have hlt : 0 < (old ++ t).length := by
    simp only [List.length_append]; omega
  obtain ⟨_, hr⟩ := hiso 0 hlt hocc
  rw [Nat.zero_add] at hr
  have hshift := nonHexAt_append_shift old t 0
  rw [Nat.add_zero] at hshift
  rwa [hshift] at hr

/-- After a replaced block, `old` cannot match again immediately: the
remainder starts with a non-hex character. -/
theorem old_not_prefix_tail {old t : Chars} (hne : old ≠ [])
    (hohex : old.all hexChar = true) (hiso : HisoP old (old ++ t)) : ¬ old <+: t := by
  intro hpt
  rcases hpt with ⟨u, hu⟩
  have h0 := tail_head_nonhex hne hiso
  rw [← hu] at h0
  match old, hne, hohex with
  | o :: os, _, hohex =>
    have hg : ((o :: os) ++ u)[0]? = some o := by simp
    have hnx := nonHexAt_some hg h0
    simp only [List.all_cons, Bool.and_eq_true] at hohex
    rw [hnx] at hohex
    exact Bool.false_ne_true hohex.1

/-- A hexadecimal string that is a prefix of the output of a replacement is
a prefix of the input, or the input starts with `old` and the string is a
prefix of `new`. -/
theorem pyReplaceP_prefix_pullback {old new : Chars} (hne : old ≠ [])
    (hohex : old.all hexChar = true) :
    ∀ s : Chars, HisoP old s → ∀ q : Chars, q.all hexChar = true → q.length ≤ new.length →
      q <+: pyReplaceP old new s → q <+: s ∨ (old <+: s ∧ q <+: new) := by
  refine replace_rec_ind old hne _ ?_ ?_ ?_
  · intro _ q _ _ hq
    rw [pyReplaceP_nil] at hq
    exact Or.inl hq
  · intro c rest hp ih hiso q hqhex hqlen hq
    rw [pyReplaceP_cons_neg new hp] at hq
    match q, hqhex, hqlen, hq with
    | [], _, _, _ => exact Or.inl (nilIsPrefix _)
    | c1 :: q1, hqhex, hqlen, hq =>
      obtain ⟨rfl, hq1⟩ := List.cons_prefix_cons.mp hq
      simp only [List.all_cons, Bool.and_eq_true] at hqhex
      have hq1len : q1.length ≤ new.length := by
        simp only [List.length_cons] at hqlen; omega
      rcases ih (HisoP_tail hiso) q1 hqhex.2 hq1len hq1 with h | ⟨hps, _⟩
      · exact Or.inl (List.cons_prefix_cons.mpr ⟨rfl, h⟩)
      · exfalso
        have hocc : occursAt old (c1 :: rest) 1 := by
          rw [show (1 : ℕ) = 0 + 1 by rfl, occursAt_cons_succ]
          exact (occursAt_zero old rest).mpr hps
        obtain ⟨hl, _⟩ := hiso 1 (occursAt_lt hne hocc) hocc
        rcases hl with h0 | hnh
        · omega
        · have hg : (c1 :: rest)[0]? = some c1 := by simp
          have hnx := nonHexAt_some hg hnh
          rw [hnx] at hqhex
          exact Bool.false_ne_true hqhex.1
  · intro t _ _ q _ hqlen hq
    rw [pyReplaceP_append new hne] at hq
    exact Or.inr ⟨⟨t, rfl⟩, prefix_of_append_le hq hqlen⟩

/-- Positions covered by no occurrence of `old` are unchanged by the
replacement (for a length-preserving pair). -/
theorem pyReplaceP_untouched {old new : Chars} (hne : old ≠ [])
    (hlen : new.length = old.length) :
    ∀ s : Chars, ∀ j : ℕ, (∀ p, occursAt old s p → j < p ∨ p + old.length ≤ j) →
      (pyReplaceP old new s)[j]? = s[j]? := by
  refine replace_rec_ind old hne _ ?_ ?_ ?_
  · intro j _
    rw [pyReplaceP_nil]
  · intro c rest hp ih j hj
    rw [pyReplaceP_cons_neg new hp]
    match j with
    | 0 => simp
    | j + 1 =>
      rw [List.getElem?_cons_succ, List.getElem?_cons_succ]
      apply ih
      intro p hocc
      have := hj (p + 1) ((occursAt_cons_succ _ _ _ _).mpr hocc)
      omega
  · intro t ih j hj
    rw [pyReplaceP_append new hne]
    have h0 : occursAt old (old ++ t) 0 := (occursAt_zero _ _).mpr ⟨t, rfl⟩
    have hjge : old.length ≤ j := by
      have := hj 0 h0; omega
    rw [List.getElem?_append_right (by omega : new.length ≤ j),
      List.getElem?_append_right hjge, hlen]
    apply ih
    intro p hocc
    have := hj (old.length + p) (occursAt_append_shift old hocc)
    omega

/-- Each isolated occurrence of `old` is rewritten to `new`, in place. -/
theorem pyReplaceP_occurrence {old new : Chars} (hne : old ≠ [])
    (hlen : new.length = old.length) (hohex : old.all hexChar = true) :
    ∀ s : Chars, HisoP old s → ∀ p, occursAt old s p →
      occursAt new (pyReplaceP old new s) p := by
  have hol : 0 < old.length := List.length_pos.mpr hne
  refine replace_rec_ind old hne _ ?_ ?_ ?_
  · intro _ p hocc
    exfalso
    have hb := occursAt_bound hne hocc
    simp only [List.length_nil] at hb
    omega
  · intro c rest hp ih hiso p hocc
    rw [pyReplaceP_cons_neg new hp]
    match p with
    | 0 => exact absurd ((occursAt_zero _ _).mp hocc) hp
    | p + 1 =>
      rw [occursAt_cons_succ] at hocc ⊢
      exact ih (HisoP_tail hiso) p hocc
  · intro t ih hiso p hocc
    rw [pyReplaceP_append new hne]
    match p with
    | 0 => exact (occursAt_zero _ _).mpr ⟨_, rfl⟩
    | p + 1 =>
      by_cases hcase : p + 1 ≤ old.length
      · exfalso
        obtain ⟨hl, _⟩ := hiso (p + 1) (occursAt_lt hne hocc) hocc
        rcases hl with h0 | hnh
        · omega
        · rw [show p + 1 - 1 = p by omega] at hnh
          have hg : (old ++ t)[p]? = old[p]? := by
            rw [List.getElem?_append, if_pos (by omega)]
          have hsome : old[p]? = some (old.get ⟨p, by omega⟩) := by
            rw [List.getElem?_eq_getElem (by omega)]
            rfl
          have hnx := nonHexAt_some (hg.trans hsome) hnh
          have hx := allHex_get hohex hsome
          rw [hnx] at hx
          exact Bool.false_ne_true hx
      · have hge : old.length ≤ p + 1 := by omega
        have hocc2 : occursAt old t (p + 1 - old.length) := occursAt_append_extract hge hocc
        have hplaced := ih (HisoP_drop hne hohex hiso) _ hocc2
        have hshift := occursAt_append_shift new hplaced
        rw [show new.length + (p + 1 - old.length) = p + 1 by omega] at hshift
        exact hshift

/-- An occurrence, in the output, of a full-length hex string other than
`new` pulls back to an occurrence at the same position in the input. -/
theorem pyReplaceP_pullback {old new : Chars} (hne : old ≠ [])
    (hlen : new.length = old.length) (hohex : old.all hexChar = true) :
    ∀ s : Chars, HisoP old s → ∀ q : Chars, q.all hexChar = true → q.length = new.length →
      q ≠ new → ∀ i, occursAt q (pyReplaceP old new s) i → occursAt q s i := by
  have hol : 0 < old.length := List.length_pos.mpr hne
  refine replace_rec_ind old hne _ ?_ ?_ ?_
  · intro _ q _ hqlen _ i hocc
    exfalso
    rw [pyReplaceP_nil] at hocc
    have hqne : q ≠ [] := by
      intro h
      rw [h] at hqlen
      simp only [List.length_nil] at hqlen
      omega
    have hb := occursAt_bound hqne hocc
    simp only [List.length_nil] at hb
    have : 0 < q.length := List.length_pos.mpr hqne
    omega
  · intro c rest hp ih hiso q hqhex hqlen hqne i hocc
    match i with
    | 0 =>
      have hq : q <+: pyReplaceP old new (c :: rest) := (occursAt_zero _ _).mp hocc
      rcases pyReplaceP_prefix_pullback hne hohex (c :: rest) hiso q hqhex (le_of_eq hqlen)
          hq with h | ⟨hps, _⟩
      · exact (occursAt_zero _ _).mpr h
      · exact absurd hps hp
    | i + 1 =>
      rw [pyReplaceP_cons_neg new hp] at hocc
      rw [occursAt_cons_succ] at hocc ⊢
      exact ih (HisoP_tail hiso) q hqhex hqlen hqne i hocc
  · intro t ih hiso q hqhex hqlen hqne i hocc
    rw [pyReplaceP_append new hne] at hocc
    have hq0 : 0 < q.length := by omega
    have hqne2 : q ≠ [] := by
      intro h
      rw [h] at hq0
      simp at hq0
    by_cases hA : i + q.length ≤ new.length
    · exfalso
      have hi0 : i = 0 := by omega
      subst hi0
      have hq : q <+: new ++ pyReplaceP old new t := (occursAt_zero _ _).mp hocc
      have hqn : q <+: new := prefix_of_append_le hq (by omega)
      exact hqne (hqn.eq_of_length hqlen)
    · by_cases hB : new.length ≤ i
      · have hocc2 := occursAt_append_extract hB hocc
        have hpull := ih (HisoP_drop hne hohex hiso) q hqhex hqlen hqne _ hocc2
        have hsh := occursAt_append_shift old hpull
        rw [show old.length + (i - new.length) = i by omega] at hsh
        exact hsh
      · exfalso
        push_neg at hA hB
        have hj : new.length - i < q.length := by omega
        have hget := occursAt_get hocc (new.length - i) hj
        rw [show i + (new.length - i) = new.length by omega] at hget
        have happ : (new ++ pyReplaceP old new t)[new.length]? =
            (pyReplaceP old new t)[0]? := by
          rw [List.getElem?_append_right (le_refl _), Nat.sub_self]
        have hhead := pyReplaceP_get_zero new (old_not_prefix_tail hne hohex hiso)
        rw [happ, hhead] at hget
        have hd : q[new.length - i]? = some (q.get ⟨new.length - i, hj⟩) := by
          rw [List.getElem?_eq_getElem hj]
          rfl
        rw [hd] at hget
        have hdx := allHex_get hqhex hd
        have hnd := nonHexAt_some hget (tail_head_nonhex hne hiso)
        rw [hnd] at hdx
        exact Bool.false_ne_true hdx

/-- After the replacement, `old` itself no longer occurs anywhere. -/
theorem pyReplaceP_no_old {old new : Chars} (hne : old ≠ [])
    (hlen : new.length = old.length) (hohex : old.all hexChar = true)
    {s : Chars} (hiso : HisoP old s) (hone : old ≠ new) :
    ∀ i, ¬ occursAt old (pyReplaceP old new s) i := by
  intro i hocc
  have hback := pyReplaceP_pullback hne hlen hohex s hiso old hohex hlen.symm hone i hocc
  have hnew := pyReplaceP_occurrence hne hlen hohex s hiso i hback
  exact hone (occursAt_unique hocc hnew hlen.symm)

/-- With no occurrence of `old`, the replacement is the identity. -/
theorem pyReplaceP_id {old new : Chars} (hne : old ≠ []) :
    ∀ s : Chars, (∀ i, ¬ occursAt old s i) → pyReplaceP old new s = s := by
  intro s
  induction s with
  | nil => intro _; rw [pyReplaceP_nil]
  | cons c rest ih =>
    intro h
    have hp : ¬ old <+: (c :: rest) := fun hpre => h 0 ((occursAt_zero _ _).mpr hpre)
    rw [pyReplaceP_cons_neg new hp, ih]
    intro i hocc
    exact h (i + 1) ((occursAt_cons_succ _ _ _ _).mpr hocc)

theorem not_contains_iff {o s : Chars} (hne : o ≠ []) :
    ¬ Contains o s ↔ ∀ i, ¬ occursAt o s i := by
  constructor
  · intro h i hocc
    exact h ⟨i, by have := occursAt_lt hne hocc; omega, hocc⟩
  · intro h hc
    rcases hc with ⟨i, _, hocc⟩
    exact h i hocc

/-- Non-hex characters stay in place, with the same value. -/
theorem pyReplaceP_nonhex_pres {old new : Chars} (hne : old ≠ [])
    (hlen : new.length = old.length) (hohex : old.all hexChar = true)
    {s : Chars} {j : ℕ} {d : Char} (hg : s[j]? = some d) (hnx : hexChar d = false) :
    (pyReplaceP old new s)[j]? = some d := by
  rw [pyReplaceP_untouched hne hlen s j ?_]
  · exact hg
  · intro p hocc
    by_contra hcon
    push_neg at hcon
    exact nonhex_not_covered hg hnx hohex hocc (by omega) (by omega)

theorem nonHexAt_pres {old new : Chars} (hne : old ≠ [])
    (hlen : new.length = old.length) (hohex : old.all hexChar = true)
    {s : Chars} {j : ℕ} (h : nonHexAt s j = true) :
    nonHexAt (pyReplaceP old new s) j = true := by
  match hg : s[j]? with
  | some d =>
    have hnx := nonHexAt_some hg h
    rw [nonHexAt, pyReplaceP_nonhex_pres hne hlen hohex hg hnx]
    simpa using hnx
  | none =>
    apply nonHexAt_of_le
    rw [pyReplaceP_length hne new hlen]
    exact List.getElem?_eq_none_iff.mp hg

/-- A window disjoint from every occurrence of `old` is preserved. -/
theorem pyReplaceP_window_pres {old new : Chars} (hne : old ≠ [])
    (hlen : new.length = old.length) {s w : Chars} {i : ℕ}
    (hocc : occursAt w s i)
    (hdisj : ∀ p, occursAt old s p → p + old.length ≤ i ∨ i + w.length ≤ p) :
    occursAt w (pyReplaceP old new s) i := by
  apply occursAt_of_get
  intro j hj
  rw [pyReplaceP_untouched hne hlen s (i + j) ?_]
  · exact occursAt_get hocc j hj
  · intro p hop
    rcases hdisj p hop with h | h
    · exact Or.inr (by omega)
    · exact Or.inl (by omega)

/-- An all-hex string overlapping an isolated window of the same length
coincides with it. -/
theorem overlap_eq {w q s : Chars} {i p : ℕ} (hw : occursAt w s i)
    (hfl : flankOK w s i) (hq : occursAt q s p) (hqhex : q.all hexChar = true)
    (hqlen : q.length = w.length) (hov1 : p < i + w.length) (hov2 : i < p + q.length) :
    p = i := by
  rcases Nat.lt_trichotomy p i with hlt | heq | hgt
  · exfalso
    have hj : i - 1 - p < q.length := by omega
    have hget := occursAt_get hq (i - 1 - p) hj
    rw [show p + (i - 1 - p) = i - 1 by omega] at hget
    obtain ⟨hl, _⟩ := hfl
    rcases hl with h0 | hnh
    · omega
    · have hd : q[i - 1 - p]? = some (q.get ⟨i - 1 - p, hj⟩) := by
        rw [List.getElem?_eq_getElem hj]
        rfl
      rw [hd] at hget
      have hnx := nonHexAt_some hget hnh
      have hx := allHex_get hqhex hd
      rw [hnx] at hx
      exact Bool.false_ne_true hx
  · exact heq
  · exfalso
    have hj : i + w.length - p < q.length := by omega
    have hget := occursAt_get hq (i + w.length - p) hj
    rw [show p + (i + w.length - p) = i + w.length by omega] at hget
    obtain ⟨_, hr⟩ := hfl
    have hd : q[i + w.length - p]? = some (q.get ⟨i + w.length - p, hj⟩) := by
      rw [List.getElem?_eq_getElem hj]
      rfl
    rw [hd] at hget
    have hnx := nonHexAt_some hget hr
    have hx := allHex_get hqhex hd
    rw [hnx] at hx
    exact Bool.false_ne_true hx

/-- Isolation of every other full-length hex string is preserved by one
replacement step. -/
theorem HisoP_pres {old new : Chars} (hne : old ≠ [])
    (hlen : new.length = old.length) (hohex : old.all hexChar = true)
    {s q : Chars} (hiso : HisoP old s) (hq : HisoP q s) (hqhex : q.all hexChar = true)
    (hqlen : q.length = new.length) (hqne : q ≠ new) :
    HisoP q (pyReplaceP old new s) := by
  intro i _ hocc
  have hback := pyReplaceP_pullback hne hlen hohex s hiso q hqhex hqlen hqne i hocc
  have hq0 : 0 < q.length := by
    rw [hqlen, hlen]
    exact List.length_pos.mpr hne
  have hqne2 : q ≠ [] := List.length_pos.mp hq0
  obtain ⟨hl, hr⟩ := hq i (occursAt_lt hqne2 hback) hback
  refine ⟨?_, nonHexAt_pres hne hlen hohex hr⟩
  rcases hl with h0 | hnh
  · exact Or.inl h0
  · exact Or.inr (nonHexAt_pres hne hlen hohex hnh)

theorem pyReplace_eq {old : Chars} (hne : old ≠ []) (s new : Chars) :
    pyReplace s old new = pyReplaceP old new s := by
  match old, hne with
  | _ :: _, _ => rfl

/-- Master specification of the substitution loop (lines 123–124) for a
well-formed, non-interfering mapping table whose old GUIDs occur only
isolated in the content: the length is preserved, non-hex characters are
untouched, no old GUID survives, every original occurrence of an old GUID
now carries the corresponding new GUID at the same position, absent strings
that are not new GUIDs stay absent, and isolated windows keyed by no old
GUID are preserved. -/
theorem applyMappings_spec :
    ∀ (M : List (Chars × Chars)) (c0 : Chars),
      (∀ p ∈ M, wfPair p) → (∀ p ∈ M, ∀ q ∈ M, p.1 ≠ q.2) → (M.map Prod.fst).Nodup →
      (∀ p ∈ M, HisoP p.1 c0) →
      (applyMappings M c0).length = c0.length ∧
      (∀ (j : ℕ) (d : Char), c0[j]? = some d → hexChar d = false →
        (applyMappings M c0)[j]? = some d) ∧
      (∀ p ∈ M, ∀ i, ¬ occursAt p.1 (applyMappings M c0) i) ∧
      (∀ p ∈ M, ∀ i, occursAt p.1 c0 i → occursAt p.2 (applyMappings M c0) i) ∧
      (∀ q, q.all hexChar = true → q.length = 32 → (∀ p ∈ M, q ≠ p.2) →
        (∀ i, ¬ occursAt q c0 i) → ∀ i, ¬ occursAt q (applyMappings M c0) i) ∧
      (∀ q i, q.all hexChar = true → q.length = 32 → (∀ p ∈ M, p.1 ≠ q) →
        occursAt q c0 i → flankOK q c0 i → occursAt q (applyMappings M c0) i) := by
  intro M
  induction M with
  | nil =>
    intro c0 _ _ _ _
    refine ⟨rfl, ?_, ?_, ?_, ?_, ?_⟩
    · intro j d hg _
      exact hg
    · intro p hp
      simp at hp
    · intro p hp
      simp at hp
    · intro q _ _ _ h i
      exact h i
    · intro q i _ _ _ hocc _
      exact hocc
  | cons hd tl ih =>
    intro c0 hwf hni hnd hiso
    obtain ⟨o, n⟩ := hd
    have hmem0 : (o, n) ∈ (o, n) :: tl := List.mem_cons_self _ _
    obtain ⟨ho32, hn32, hohex, hnhex⟩ := hwf (o, n) hmem0
    replace ho32 : o.length = 32 := ho32
    replace hn32 : n.length = 32 := hn32
    replace hohex : o.all hexChar = true := hohex
    replace hnhex : n.all hexChar = true := hnhex
    have hne : o ≠ [] := by
      intro h
      rw [h] at ho32
      simp at ho32
    have hlen : n.length = o.length := by omega
    have hone : o ≠ n := hni (o, n) hmem0 (o, n) hmem0
    have hiso0 : HisoP o c0 := hiso (o, n) hmem0
    have happ : applyMappings ((o, n) :: tl) c0 = applyMappings tl (pyReplaceP o n c0) := by
      simp only [applyMappings, List.foldl_cons]
      rw [pyReplace_eq hne]
    simp only [List.map_cons] at hnd
    have hnd2 := List.nodup_cons.mp hnd
    have hiso1 : ∀ p ∈ tl, HisoP p.1 (pyReplaceP o n c0) := by
      intro p hp
      obtain ⟨hp32, _, hphex, _⟩ := hwf p (List.mem_cons_of_mem _ hp)
      exact HisoP_pres hne hlen hohex hiso0 (hiso p (List.mem_cons_of_mem _ hp)) hphex
        (by omega) (hni p (List.mem_cons_of_mem _ hp) (o, n) hmem0)
    obtain ⟨IH1, IH2, IH3, IH4, IH5, IH6⟩ :=
      ih (pyReplaceP o n c0) (fun p hp => hwf p (List.mem_cons_of_mem _ hp))
        (fun p hp q hq => hni p (List.mem_cons_of_mem _ hp) q (List.mem_cons_of_mem _ hq))
        hnd2.2 hiso1
    have hlen1 : (pyReplaceP o n c0).length = c0.length := pyReplaceP_length hne n hlen c0
    refine ⟨?_, ?_, ?_, ?_, ?_, ?_⟩
    · rw [happ, IH1, hlen1]
    · intro j d hg hnx
      rw [happ]
      exact IH2 j d (pyReplaceP_nonhex_pres hne hlen hohex hg hnx) hnx
    · intro p hp i
      rw [happ]
      rcases List.mem_cons.mp hp with rfl | hp2
    
      · apply IH5 o hohex ho32
        · intro p2 hp2
          exact hni (o, n) hmem0 p2 (List.mem_cons_of_mem _ hp2)
        · exact pyReplaceP_no_old hne hlen hohex hiso0 hone
      · exact IH3 p hp2 i
    · intro p hp i hocc
      rw [happ]
      rcases List.mem_cons.mp hp with rfl | hp2
      · have h1 := pyReplaceP_occurrence hne hlen hohex c0 hiso0 i hocc
        apply IH6 n i hnhex hn32
        · intro p2 hp2
          exact hni p2 (List.mem_cons_of_mem _ hp2) (o, n) hmem0
        · exact h1
        · obtain ⟨hl, hr⟩ := hiso0 i (occursAt_lt hne hocc) hocc
          constructor
          · rcases hl with h0 | hnh
            · exact Or.inl h0
            · exact Or.inr (nonHexAt_pres hne hlen hohex hnh)
          · rw [hlen]
            exact nonHexAt_pres hne hlen hohex hr
      · obtain ⟨hp32, _, hphex, _⟩ := hwf p (List.mem_cons_of_mem _ hp2)
        have hpne : p.1 ≠ [] := by
          intro h
          rw [h] at hp32
          simp at hp32
        apply IH4 p hp2 i
        apply pyReplaceP_window_pres hne hlen hocc
        intro p0 hop0
        by_contra hcon
        push_neg at hcon
        have hflw : flankOK p.1 c0 i :=
          hiso p (List.mem_cons_of_mem _ hp2) i (occursAt_lt hpne hocc) hocc
        have heq := overlap_eq hocc hflw hop0 hohex (by omega) (by omega) (by omega)
        subst heq
        have hoeq : o = p.1 := occursAt_unique hop0 hocc (by omega)
        apply hnd2.1
        rw [hoeq]
        exact List.mem_map_of_mem Prod.fst hp2
    · intro q hqhex hq32 hqvals hnoc i
      rw [happ]
      apply IH5 q hqhex hq32 (fun p2 hp2 => hqvals p2 (List.mem_cons_of_mem _ hp2))
      intro i2 hocc2
      have hqn : q ≠ n := hqvals (o, n) hmem0
      exact hnoc i2
        (pyReplaceP_pullback hne hlen hohex c0 hiso0 q hqhex (by omega) hqn i2 hocc2)
    · intro q i hqhex hq32 hqkeys hocc hfl
      rw [happ]
      apply IH6 q i hqhex hq32 (fun p2 hp2 => hqkeys p2 (List.mem_cons_of_mem _ hp2))
      · apply pyReplaceP_window_pres hne hlen hocc
        intro p0 hop0
        by_contra hcon
        push_neg at hcon
        have heq := overlap_eq hocc hfl hop0 hohex (by omega) (by omega) (by omega)
        subst heq
        have hoq : o = q := occursAt_unique hop0 hocc (by omega)
        exact (hqkeys (o, n) hmem0) hoq
      · obtain ⟨hl, hr⟩ := hfl
        refine ⟨?_, nonHexAt_pres hne hlen hohex hr⟩
        rcases hl with h0 | hnh
        · exact Or.inl h0
        · exact Or.inr (nonHexAt_pres hne hlen hohex hnh)

/-- With no occurrence of any old GUID the whole loop is the identity. -/
theorem applyMappings_id {M : List (Chars × Chars)} :
    ∀ {c : Chars}, (∀ p ∈ M, ¬ Contains p.1 c) → applyMappings M c = c := by
  induction M with
  | nil => intro c _; rfl
  | cons hd tl ih =>
    intro c h
    obtain ⟨o, n⟩ := hd
    have ho := h (o, n) (List.mem_cons_self _ _)
    have hne : o ≠ [] := by
      intro h0
      apply ho
      exact ⟨0, by omega, by simp [occursAt, h0]⟩
    have hid : pyReplaceP o n c = c :=
      pyReplaceP_id hne c ((not_contains_iff hne).mp ho)
    have happ : applyMappings ((o, n) :: tl) c = applyMappings tl (pyReplaceP o n c) := by
      simp only [applyMappings, List.foldl_cons]
      rw [pyReplace_eq hne]
    rw [happ, hid]
    exact ih (fun p hp => h p (List.mem_cons_of_mem _ hp))

/-! ### The substitution loop, componentwise -/

theorem runSubstitution_acc (M : List (Chars × Chars)) :
    ∀ (ts : List TargetFile) (acc : SubstOut),
      ts.foldl (substStep M) acc =
        ⟨acc.processed + ts.length,
          acc.modified + (ts.filter (fun f => (replace_guids_in_file M f).modified)).length,
          acc.files ++ ts.map (fun f => (replace_guids_in_file M f).file),
          acc.log ++ (ts.map (fun f => (replace_guids_in_file M f).log)).flatten,
          acc.wrotePaths ++
            (ts.filter (fun f => (replace_guids_in_file M f).wrote)).map (fun f => f.path)⟩ := by
  intro ts
  induction ts with
  | nil =>
    intro acc
    simp
  | cons f ts ih =>
    intro acc
    rw [List.foldl_cons, ih]
    simp only [substStep, List.filter_cons, List.map_cons, List.flatten_cons, List.length_cons,
      SubstOut.mk.injEq]
    refine ⟨by omega, ?_, by simp, by simp, ?_⟩
    · cases hr : (replace_guids_in_file M f).modified <;> simp [hr] <;> omega
    · cases hr : (replace_guids_in_file M f).wrote <;> simp [hr]

theorem runSubstitution_eq (M : List (Chars × Chars)) (ts : List TargetFile) :
    runSubstitution M ts =
      ⟨ts.length, (ts.filter (fun f => (replace_guids_in_file M f).modified)).length,
        ts.map (fun f => (replace_guids_in_file M f).file),
        (ts.map (fun f => (replace_guids_in_file M f).log)).flatten,
        (ts.filter (fun f => (replace_guids_in_file M f).wrote)).map (fun f => f.path)⟩ := by
  rw [runSubstitution, runSubstitution_acc]
  simp

/-! ### Dictionary lemmas -/

theorem dictLookup_insert_self (d : List (Chars × Chars)) (k v : Chars) :
    dictLookup (dictInsert d k v) k = some v := by
  induction d with
  | nil => simp [dictInsert, dictLookup]
  | cons hd tl ih =>
    obtain ⟨k1, v1⟩ := hd
    by_cases h : k1 = k
    · subst h
      simp [dictInsert, dictLookup]
    · simp [dictInsert, dictLookup, h, ih]

theorem dictLookup_insert_other (d : List (Chars × Chars)) (k v k2 : Chars) (h : k ≠ k2) :
    dictLookup (dictInsert d k v) k2 = dictLookup d k2 := by
  induction d with
  | nil => simp [dictInsert, dictLookup, h]
  | cons hd tl ih =>
    obtain ⟨k1, v1⟩ := hd
    by_cases h1 : k1 = k
    · subst h1
      simp [dictInsert, dictLookup, h]
    · by_cases h2 : k1 = k2
      · subst h2
        simp [dictInsert, dictLookup, h1]
      · simp [dictInsert, dictLookup, h1, h2, ih]

theorem dictLookup_insert_isSome (d : List (Chars × Chars)) (k v k2 : Chars)
    (h : (dictLookup d k2).isSome = true) :
    (dictLookup (dictInsert d k v) k2).isSome = true := by
  by_cases hk : k = k2
  · subst hk
    rw [dictLookup_insert_self]
    rfl
  · rwa [dictLookup_insert_other d k v k2 hk]

theorem mem_dictInsert {d : List (Chars × Chars)} {k v : Chars} {p : Chars × Chars}
    (h : p ∈ dictInsert d k v) : p ∈ d ∨ p = (k, v) := by
  induction d with
  | nil =>
    simp [dictInsert] at h
    exact Or.inr h
  | cons hd tl ih =>
    obtain ⟨k1, v1⟩ := hd
    by_cases h1 : k1 = k
    · subst h1
      simp only [dictInsert, if_pos rfl] at h
      rcases List.mem_cons.mp h with h2 | h2
      · exact Or.inr h2
      · exact Or.inl (List.mem_cons_of_mem _ h2)
    · simp only [dictInsert, if_neg h1] at h
      rcases List.mem_cons.mp h with h2 | h2
      · exact Or.inl (h2 ▸ List.mem_cons_self _ _)
      · rcases ih h2 with h3 | h3
        · exact Or.inl (List.mem_cons_of_mem _ h3)
        · exact Or.inr h3

/-! ### The mapping-table component of `build_guid_mappings` -/

theorem build_guid_mappings_fst (am : List MetaFile) :
    ∀ (dm : List MetaFile) (acc : List (Chars × Chars) × List LogEntry),
      (dm.foldl (buildStep am) acc).1 = dm.foldl (corrStep am) acc.1 := by
  intro dm
  induction dm with
  | nil => intro acc; rfl
  | cons d dm ih =>
    intro acc
    rw [List.foldl_cons, List.foldl_cons, ih]
    congr 1
    rw [buildStep, corrStep, corrOf]
    cases hf : am.find? (fun m => m.stem == d.stem) with
    | none => rfl
    | some a =>
      cases hd : (extract_guid_from_meta d).1 with
      | none => cases ha : (extract_guid_from_meta a).1 <;> simp [hd, ha]
      | some g => cases ha : (extract_guid_from_meta a).1 <;> simp [hd, ha]

theorem corr_fold_preserve_some (am : List MetaFile) :
    ∀ (l : List MetaFile) (t : List (Chars × Chars)) (g : Chars),
      (dictLookup t g).isSome = true →
      (dictLookup (l.foldl (corrStep am) t) g).isSome = true := by
  intro l
  induction l with
  | nil => intro t g h; exact h
  | cons d l ih =>
    intro t g h
    rw [List.foldl_cons]
    apply ih
    rw [corrStep]
    cases hc : corrOf am d with
    | none => exact h
    | some p => exact dictLookup_insert_isSome t p.1 p.2 g h

theorem corr_fold_no_write (am : List MetaFile) :
    ∀ (l : List MetaFile) (t : List (Chars × Chars)) (g v : Chars),
      dictLookup t g = some v → (∀ d ∈ l, ∀ v2, corrOf am d ≠ some (g, v2)) →
      dictLookup (l.foldl (corrStep am) t) g = some v := by
  intro l
  induction l with
  | nil => intro t g v h _; exact h
  | cons d l ih =>
    intro t g v h hno
    rw [List.foldl_cons]
    apply ih _ _ _ ?_ (fun d2 hd2 => hno d2 (List.mem_cons_of_mem _ hd2))
    rw [corrStep]
    cases hc : corrOf am d with
    | none => exact h
    | some p =>
      obtain ⟨g2, v2⟩ := p
      have hne : g2 ≠ g := by
        intro he
        subst he
        exact hno d (List.mem_cons_self _ _) v2 hc
      rw [dictLookup_insert_other t g2 v2 g hne]
      exact h

theorem corr_fold_entries (am : List MetaFile) (P : Chars × Chars → Prop)
    (hstep : ∀ d p, corrOf am d = some p → P p) :
    ∀ (l : List MetaFile) (t : List (Chars × Chars)), (∀ p ∈ t, P p) →
      ∀ p ∈ l.foldl (corrStep am) t, P p := by
  intro l
  induction l with
  | nil => intro t h; exact h
  | cons d l ih =>
    intro t h
    rw [List.foldl_cons]
    apply ih
    intro p hp
    rw [corrStep] at hp
    cases hc : corrOf am d with
    | none =>
      rw [hc] at hp
      exact h p hp
    | some p2 =>
      rw [hc] at hp
      rcases mem_dictInsert hp with h2 | h2
      · exact h p h2
      · exact h2 ▸ hstep d p2 hc

/-- Recorded correlations come from a found reference file and two
successful extractions. -/
theorem corrOf_spec {am : List MetaFile} {d : MetaFile} {g v : Chars}
    (h : corrOf am d = some (g, v)) :
    ∃ a, am.find? (fun m => m.stem == d.stem) = some a ∧
      (extract_guid_from_meta d).1 = some g ∧ (extract_guid_from_meta a).1 = some v := by
  rw [corrOf] at h
  revert h
  cases hf : am.find? (fun m => m.stem == d.stem) with
  | none =>
    intro h
    simp at h
  | some a =>
    cases hd : (extract_guid_from_meta d).1 with
    | none =>
      cases ha : (extract_guid_from_meta a).1 <;> intro h <;> simp [hd, ha] at h
    | some g0 =>
      cases ha : (extract_guid_from_meta a).1 with
      | none =>
        intro h
        simp [hd, ha] at h
      | some v0 =>
        intro h
        simp [ha] at h
        exact ⟨a, rfl, by rw [h.1], by rw [ha, h.2]⟩

/-! ### Character-level facts about lowercasing -/

theorem char_le_iff {a b : Char} : a ≤ b ↔ a.toNat ≤ b.toNat := Iff.rfl

theorem pyLower_lowerhex {c : Char} (h : hexChar c = true) :
    isLowerHex (pyLower c) = true := by
  rw [hexChar, decide_eq_true_iff] at h
  rw [pyLower]
  by_cases hU : 'A' ≤ c ∧ c ≤ 'Z'
  · rw [if_pos hU]
    obtain ⟨h1, h2⟩ := hU
    rw [char_le_iff] at h1 h2
    have e1 : ('A').toNat = 65 := rfl
    have e2 : ('Z').toNat = 90 := rfl
    rw [e1] at h1
    rw [e2] at h2
    have hm : 65 ≤ c.toNat ∧ c.toNat ≤ 70 := by
      rcases h with h | h | h <;> obtain ⟨ha, hb⟩ := h <;> rw [char_le_iff] at ha hb
      · have f1 : ('0').toNat = 48 := rfl
        have f2 : ('9').toNat = 57 := rfl
        rw [f1] at ha; rw [f2] at hb
        omega
      · have f1 : ('a').toNat = 97 := rfl
        have f2 : ('f').toNat = 102 := rfl
        rw [f1] at ha; rw [f2] at hb
        omega
      · have f1 : ('A').toNat = 65 := rfl
        have f2 : ('F').toNat = 70 := rfl
        rw [f1] at ha; rw [f2] at hb
        omega
    have hv : (Char.ofNat (c.toNat + 32)).toNat = c.toNat + 32 := by
      have hvalid : (c.toNat + 32).isValidChar := Or.inl (by omega)
      rw [Char.ofNat, dif_pos hvalid]
      rfl
    rw [isLowerHex, decide_eq_true_iff]
    right
    rw [char_le_iff, char_le_iff, hv]
    have f1 : ('a').toNat = 97 := rfl
    have f2 : ('f').toNat = 102 := rfl
    rw [f1, f2]
    omega
  · rw [if_neg hU]
    rw [isLowerHex, decide_eq_true_iff]
    rcases h with h | h | h
    · exact Or.inl h
    · exact Or.inr h
    · exfalso
      apply hU
      obtain ⟨h1, h2⟩ := h
      exact ⟨h1, le_trans h2 (by decide)⟩

theorem map_pyLower_lowerhex {g : Chars} (h : g.all hexChar = true) :
    (g.map pyLower).all isLowerHex = true := by
  rw [List.all_map]
  rw [List.all_eq_true] at h ⊢
  intro x hx
  exact pyLower_lowerhex (h x hx)

/-- A lowercase-hex character is a hex character. -/
theorem lowerhex_hex {c : Char} (h : isLowerHex c = true) : hexChar c = true := by
  rw [isLowerHex, decide_eq_true_iff] at h
  rw [hexChar, decide_eq_true_iff]
  rcases h with h | h
  · exact Or.inl h
  · exact Or.inr (Or.inl h)

/-! ### The regex model: first match, shape of the captured group -/

theorem matchGuidAt_spec {s g : Chars} (h : matchGuidAt s = some g) :
    g.length = 32 ∧ g.all hexChar = true := by
  simp only [matchGuidAt] at h
  split at h
  · split at h
    · rename_i hcond
      injection h with h2
      rw [← h2]
      exact hcond
    · exact absurd h (by simp)
  · exact absurd h (by simp)

theorem matchGuidAt_nil : matchGuidAt [] = none := rfl

theorem searchGuid_first {s g : Chars} (h : searchGuid s = some g) :
    ∃ i, matchGuidAt (s.drop i) = some g ∧ ∀ j, j < i → matchGuidAt (s.drop j) = none := by
  induction s with
  | nil => simp [searchGuid] at h
  | cons c rest ih =>
    rw [searchGuid] at h
    revert h
    cases hm : matchGuidAt (c :: rest) with
    | some g2 =>
      intro h
      simp only [Option.some.injEq] at h
      refine ⟨0, ?_, ?_⟩
      · rw [List.drop_zero, hm, h]
      · intro j hj
        omega
    | none =>
      intro h
      obtain ⟨i, h1, h2⟩ := ih h
      refine ⟨i + 1, by simpa [List.drop_succ_cons] using h1, ?_⟩
      intro j hj
      match j with
      | 0 => exact hm
      | j + 1 =>
        rw [List.drop_succ_cons]
        exact h2 j (by omega)

theorem searchGuid_none {s : Chars} (h : searchGuid s = none) :
    ∀ i, matchGuidAt (s.drop i) = none := by
  induction s with
  | nil =>
    intro i
    rw [List.drop_nil]
    exact matchGuidAt_nil
  | cons c rest ih =>
    rw [searchGuid] at h
    revert h
    cases hm : matchGuidAt (c :: rest) with
    | some g2 => intro h; exact absurd h (by simp)
    | none =>
      intro h i
      match i with
      | 0 => exact hm
      | i + 1 =>
        rw [List.drop_succ_cons]
        exact ih h i

/-- Shape of a successful extraction: 32 characters, all lowercase hex. -/
theorem extract_fst_shape {m : MetaFile} {g : Chars}
    (h : (extract_guid_from_meta m).1 = some g) :
    g.length = 32 ∧ g.all isLowerHex = true := by
  rw [extract_guid_from_meta] at h
  revert h
  cases hc : m.content with
  | none => intro h; simp at h
  | some text =>
    cases hs : searchGuid text with
    | none => intro h; simp [hs] at h
    | some g0 =>
      intro h
      simp only [hs, Option.some.injEq] at h
      obtain ⟨i, h1, _⟩ := searchGuid_first hs
      obtain ⟨hl, hx⟩ := matchGuidAt_spec h1
      rw [← h]
      exact ⟨by rw [List.length_map, hl], map_pyLower_lowerhex hx⟩

/-! ### `validate_paths` and the early exits of `correct_guids` -/

theorem validate_paths_true_iff (fs : FS) :
    (validate_paths fs).1 = true ↔
      (fs.decompiledExists = true ∧ fs.decompiledMetas ≠ [] ∧ fs.actualExists = true ∧
        fs.actualMetas ≠ [] ∧ fs.projectExists = true ∧
        fs.projectFiles.any (fun f => matchesExt f ".meta") = true) := by
  rw [validate_paths]
  split_ifs with h1 h2 h3 h4 h5 h6 <;> simp_all [List.isEmpty_iff]

theorem correct_guids_validate_fail {fs : FS} (h : (validate_paths fs).1 = false) :
    correct_guids fs = ⟨0, 0, [], (validate_paths fs).2, []⟩ := by
  rw [correct_guids]
  simp [h]

theorem correct_guids_empty_mappings {fs : FS} (hv : (validate_paths fs).1 = true)
    (hm : (build_guid_mappings fs.decompiledMetas fs.actualMetas).1 = []) :
    correct_guids fs = ⟨0, 0, [],
      (validate_paths fs).2 ++ (build_guid_mappings fs.decompiledMetas fs.actualMetas).2 ++
        [.noMappingsFound], []⟩ := by
  rw [correct_guids]
  simp [hv, hm]

/-! ### `replace_guids_in_file`, case by case -/

theorem replace_content_none {M : List (Chars × Chars)} {f : TargetFile}
    (hc : f.content = none) :
    replace_guids_in_file M f = ⟨f, false, [.errorUpdating f.path], false⟩ := by
  unfold replace_guids_in_file
  rw [hc]

theorem replace_content_some {M : List (Chars × Chars)} {f : TargetFile} {cs : Chars}
    (hc : f.content = some cs) :
    replace_guids_in_file M f =
      if applyMappings M cs ≠ cs then
        if f.writable then
          ⟨{ f with content := some (applyMappings M cs) }, true, [.updatedFile f.path], true⟩
        else ⟨f, false, [.errorUpdating f.path], false⟩
      else ⟨f, false, [], false⟩ := by
  unfold replace_guids_in_file
  rw [hc]

/-- Zero occurrences of any mapped old GUID: unmodified, no write, file
untouched, nothing logged. -/
theorem replace_no_occ {M : List (Chars × Chars)} {f : TargetFile} {cs : Chars}
    (hc : f.content = some cs) (h : ∀ p ∈ M, ¬ Contains p.1 cs) :
    replace_guids_in_file M f = ⟨f, false, [], false⟩ := by
  rw [replace_content_some hc, applyMappings_id h]
  simp

/-- Applying `replace_guids_in_file` to its own output changes nothing and
reports `False`, for a well-formed table and isolated occurrences. -/
theorem replace_idem {M : List (Chars × Chars)} (hwf : WFmap M) (f : TargetFile)
    (hiso : ∀ cs, f.content = some cs → ∀ p ∈ M, HisoP p.1 cs) :
    (replace_guids_in_file M (replace_guids_in_file M f).file).modified = false ∧
    (replace_guids_in_file M (replace_guids_in_file M f).file).file =
      (replace_guids_in_file M f).file := by
  obtain ⟨hwfp, hni, hnd⟩ := hwf
  cases hc : f.content with
  | none =>
    rw [replace_content_none hc]
    dsimp only
    rw [replace_content_none hc]
    exact ⟨rfl, rfl⟩
  | some cs =>
    by_cases hch : applyMappings M cs = cs
    · have h1 : replace_guids_in_file M f = ⟨f, false, [], false⟩ := by
        rw [replace_content_some hc, hch]
        simp
      rw [h1]
      dsimp only
      rw [h1]
      exact ⟨rfl, rfl⟩
    · by_cases hw : f.writable
      · have h1 : replace_guids_in_file M f =
            ⟨{ f with content := some (applyMappings M cs) }, true,
              [.updatedFile f.path], true⟩ := by
          rw [replace_content_some hc, if_pos hch, if_pos hw]
        have hspec := applyMappings_spec M cs hwfp hni hnd (hiso cs hc)
        have hnoc : ∀ p ∈ M, ¬ Contains p.1 (applyMappings M cs) := by
          intro p hp hcont
          rcases hcont with ⟨i, _, hocc⟩
          exact hspec.2.2.1 p hp i hocc
        have h2 := replace_no_occ
          (f := { f with content := some (applyMappings M cs) }) rfl hnoc
        rw [h1, h2]
        exact ⟨rfl, rfl⟩
      · have h1 : replace_guids_in_file M f = ⟨f, false, [.errorUpdating f.path], false⟩ := by
          rw [replace_content_some hc, if_pos hch, if_neg hw]
        rw [h1]
        dsimp only
        rw [h1]
        exact ⟨rfl, rfl⟩

/-! ### Claims -/

/-- Claim C4: for a readable descriptor whose text matches
`guid:\s*([a-fA-F0-9]{32})`, `extract_guid_from_meta` returns exactly the
32 hex characters of the first match, lowercased (so the stored GUID is a
32-character lowercase-hex string regardless of the input's case); with no
match it returns `None`; only the first match is used. -/
theorem C4_extraction_spec (path stem : String) (text : Chars) :
    (searchGuid text = none →
      extract_guid_from_meta ⟨path, stem, some text⟩ = (none, [])) ∧
    (∀ g, searchGuid text = some g →
      extract_guid_from_meta ⟨path, stem, some text⟩ = (some (g.map pyLower), []) ∧
      g.length = 32 ∧ g.all hexChar = true ∧
      (g.map pyLower).length = 32 ∧ (g.map pyLower).all isLowerHex = true ∧
      (∃ i, matchGuidAt (text.drop i) = some g ∧
        ∀ j, j < i → matchGuidAt (text.drop j) = none)) := by
  constructor
  · intro h
    simp [extract_guid_from_meta, h]
  · intro g h
    obtain ⟨i, h1, _⟩ := searchGuid_first h
    obtain ⟨hl, hx⟩ := matchGuidAt_spec h1
    refine ⟨by simp [extract_guid_from_meta, h], hl, hx, by simp [hl],
      map_pyLower_lowerhex hx, searchGuid_first h⟩

theorem C4_witness :
    searchGuid ("x guid:  ABCDEFabcdef0123456789ABCDEF0123 tail").data =
      some ("ABCDEFabcdef0123456789ABCDEF0123").data ∧
    (extract_guid_from_meta ⟨"p.meta", "p", some ("x guid:  ABCDEFabcdef0123456789ABCDEF0123 tail").data⟩ =
      (some (("ABCDEFabcdef0123456789ABCDEF0123").data.map pyLower), []) ∧
    ("ABCDEFabcdef0123456789ABCDEF0123").data.length = 32 ∧
    ("ABCDEFabcdef0123456789ABCDEF0123").data.all hexChar = true ∧
    (("ABCDEFabcdef0123456789ABCDEF0123").data.map pyLower).length = 32 ∧
    (("ABCDEFabcdef0123456789ABCDEF0123").data.map pyLower).all isLowerHex = true ∧
    (∃ i, matchGuidAt (("x guid:  ABCDEFabcdef0123456789ABCDEF0123 tail").data.drop i) =
        some ("ABCDEFabcdef0123456789ABCDEF0123").data ∧
      ∀ j, j < i →
        matchGuidAt (("x guid:  ABCDEFabcdef0123456789ABCDEF0123 tail").data.drop j) = none)) :=
  ⟨by decide,
    (C4_extraction_spec "p.meta" "p" ("x guid:  ABCDEFabcdef0123456789ABCDEF0123 tail").data).2
      ("ABCDEFabcdef0123456789ABCDEF0123").data (by decide)⟩

/-- Claim C5: when a configured directory is missing or holds no `.meta`
file, or the built mapping table is empty, `correct_guids` returns `(0, 0)`
and no target file is collected or written: the project tree is untouched. -/
theorem C5_early_exit (fs : FS)
    (h : fs.decompiledExists = false ∨ fs.decompiledMetas = [] ∨ fs.actualExists = false ∨
      fs.actualMetas = [] ∨ fs.projectExists = false ∨
      (∀ f ∈ fs.projectFiles, matchesExt f ".meta" = false) ∨
      (build_guid_mappings fs.decompiledMetas fs.actualMetas).1 = []) :
    (correct_guids fs).processed = 0 ∧ (correct_guids fs).modified = 0 ∧
    (correct_guids fs).targets = [] ∧ (correct_guids fs).wrotePaths = [] := by
  by_cases hv : (validate_paths fs).1 = true
  · have hall := (validate_paths_true_iff fs).mp hv
    have hm : (build_guid_mappings fs.decompiledMetas fs.actualMetas).1 = [] := by
      rcases h with h | h | h | h | h | h | h
      · rw [h] at hall
        simp at hall
      · exact absurd h hall.2.1
      · rw [h] at hall
        simp at hall
      · exact absurd h hall.2.2.2.1
      · rw [h] at hall
        simp at hall
      · exfalso
        have hany := hall.2.2.2.2.2
        rw [List.any_eq_true] at hany
        obtain ⟨f, hf, hmf⟩ := hany
        rw [h f hf] at hmf
        exact Bool.false_ne_true hmf
      · exact h
    rw [correct_guids_empty_mappings hv hm]
    exact ⟨rfl, rfl, rfl, rfl⟩
  · have hv2 : (validate_paths fs).1 = false := by
      cases hb : (validate_paths fs).1
      · rfl
      · exact absurd hb hv
    rw [correct_guids_validate_fail hv2]
    exact ⟨rfl, rfl, rfl, rfl⟩

theorem C5_witness :
    ((FS.mk false true true [] [] []).decompiledExists = false ∨
      (FS.mk false true true [] [] []).decompiledMetas = [] ∨
      (FS.mk false true true [] [] []).actualExists = false ∨
      (FS.mk false true true [] [] []).actualMetas = [] ∨
      (FS.mk false true true [] [] []).projectExists = false ∨
      (∀ f ∈ (FS.mk false true true [] [] []).projectFiles, matchesExt f ".meta" = false) ∨
      (build_guid_mappings (FS.mk false true true [] [] []).decompiledMetas
        (FS.mk false true true [] [] []).actualMetas).1 = []) ∧
    ((correct_guids (FS.mk false true true [] [] [])).processed = 0 ∧
      (correct_guids (FS.mk false true true [] [] [])).modified = 0 ∧
      (correct_guids (FS.mk false true true [] [] [])).targets = [] ∧
      (correct_guids (FS.mk false true true [] [] [])).wrotePaths = []) :=
  ⟨Or.inl rfl, C5_early_exit (FS.mk false true true [] [] []) (Or.inl rfl)⟩

/-- Claim C6: a target file whose content holds zero occurrences of any
mapped old GUID is reported unmodified, not written, and left byte-for-byte
unchanged (and nothing is logged for it). -/
theorem C6_zero_occurrence_frame (M : List (Chars × Chars)) (f : TargetFile) (cs : Chars)
    (hc : f.content = some cs) (h : ∀ p ∈ M, ¬ Contains p.1 cs) :
    replace_guids_in_file M f = ⟨f, false, [], false⟩ :=
  replace_no_occ hc h

theorem C6_witness :
    ((⟨"A.prefab", some ("m_Script: nothing relevant").data, true⟩ : TargetFile).content =
      some ("m_Script: nothing relevant").data) ∧
    (∀ p ∈ [(List.replicate 32 'a', List.replicate 32 'b')],
      ¬ Contains p.1 ("m_Script: nothing relevant").data) ∧
    replace_guids_in_file [(List.replicate 32 'a', List.replicate 32 'b')]
        ⟨"A.prefab", some ("m_Script: nothing relevant").data, true⟩ =
      ⟨⟨"A.prefab", some ("m_Script: nothing relevant").data, true⟩, false, [], false⟩ :=
  ⟨rfl, by decide,
    C6_zero_occurrence_frame [(List.replicate 32 'a', List.replicate 32 'b')]
      ⟨"A.prefab", some ("m_Script: nothing relevant").data, true⟩
      ("m_Script: nothing relevant").data rfl (by decide)⟩

/-- Claim C7 (amended): a read failure on a descriptor file is logged and
yields `None`; but a descriptor that reads successfully and merely lacks a
well-formed `guid:` line is skipped with no log entry at all. -/
theorem C7_extraction_logging :
    (∀ m : MetaFile, m.content = none →
      extract_guid_from_meta m = (none, [LogEntry.errorReadingMeta m.path])) ∧
    (∀ (m : MetaFile) (text : Chars), m.content = some text → searchGuid text = none →
      extract_guid_from_meta m = (none, [])) := by
  constructor
  · intro m hm
    rw [extract_guid_from_meta, hm]
  · intro m text hm hs
    rw [extract_guid_from_meta, hm]
    simp [hs]

theorem C7_witness :
    ((⟨"x.meta", "x", none⟩ : MetaFile).content = none ∧
      extract_guid_from_meta ⟨"x.meta", "x", none⟩ =
        (none, [LogEntry.errorReadingMeta "x.meta"]) ∧
      (⟨"y.meta", "y", some ("no identifier").data⟩ : MetaFile).content =
        some ("no identifier").data ∧
      searchGuid ("no identifier").data = none ∧
      extract_guid_from_meta ⟨"y.meta", "y", some ("no identifier").data⟩ = (none, [])) :=
  ⟨rfl, C7_extraction_logging.1 ⟨"x.meta", "x", none⟩ rfl, rfl, by decide,
    C7_extraction_logging.2 ⟨"y.meta", "y", some ("no identifier").data⟩
      ("no identifier").data rfl (by decide)⟩

/-- Claim C7 counterexample: a readable descriptor with no well-formed
identifier line is skipped by `build_guid_mappings` with an empty log — an
error path that completes without any log entry, contradicting the claim
that extraction failures are accompanied by a log entry. -/
theorem C7_counterexample :
    (extract_guid_from_meta
      ⟨"bad.meta", "bad", some ("no identifier here").data⟩).1 = none ∧
    build_guid_mappings [⟨"bad.meta", "bad", some ("no identifier here").data⟩]
        [⟨"ref.meta", "bad", some ("guid: aaaaaaaaaaaaaaaaaaaaaaaaaaaaaaaa").data⟩] =
      ([], []) := by
  decide

/-- Claim C1 counterexample: with the mapping
`{aaaa…a ↦ baaa…a}` (both well-formed 32-hex GUIDs, old ≠ new) and a target
file whose content is 33 `a`s, `replace_guids_in_file` reports the file
modified but the old GUID still occurs in the written content — the claim's
"no occurrence of any old GUID remains" is false as stated. -/
theorem C1_counterexample :
    replace_guids_in_file [(List.replicate 32 'a', 'b' :: List.replicate 31 'a')]
        ⟨"Scene.unity", some (List.replicate 33 'a'), true⟩ =
      ⟨⟨"Scene.unity", some ('b' :: List.replicate 32 'a'), true⟩, true,
        [LogEntry.updatedFile "Scene.unity"], true⟩ ∧
    Contains (List.replicate 32 'a') ('b' :: List.replicate 32 'a') := by
  decide

/-- Claim C1 (amended): for a readable, writable target file and a
well-formed, non-interfering mapping table (32-hex GUIDs, no old GUID equal
to any new GUID) whose old GUIDs occur only isolated (delimited by non-hex
characters) in the content, if some old GUID occurs then the file is
reported modified, the new content is written back, every occurrence of an
old GUID now carries the corresponding new GUID at its position, and no
occurrence of any old GUID remains. -/
theorem C1_replace_replaces_all (M : List (Chars × Chars)) (f : TargetFile) (cs : Chars)
    (hc : f.content = some cs) (hw : f.writable = true) (hwf : WFmap M)
    (hiso : ∀ p ∈ M, HisoP p.1 cs) (hex : ∃ p ∈ M, Contains p.1 cs) :
    (replace_guids_in_file M f).modified = true ∧
    (replace_guids_in_file M f).wrote = true ∧
    (replace_guids_in_file M f).file = { f with content := some (applyMappings M cs) } ∧
    (replace_guids_in_file M f).log = [LogEntry.updatedFile f.path] ∧
    (∀ p ∈ M, ¬ Contains p.1 (applyMappings M cs)) ∧
    (∀ p ∈ M, ∀ i, occursAt p.1 cs i → occursAt p.2 (applyMappings M cs) i) := by
  obtain ⟨hwfp, hni, hnd⟩ := hwf
  have hspec := applyMappings_spec M cs hwfp hni hnd hiso
  have hch : applyMappings M cs ≠ cs := by
    intro he
    rcases hex with ⟨p, hp, i, _, hocc⟩
    have := hspec.2.2.1 p hp i
    rw [he] at this
    exact this hocc
  have h1 : replace_guids_in_file M f =
      ⟨{ f with content := some (applyMappings M cs) }, true,
        [LogEntry.updatedFile f.path], true⟩ := by
    rw [replace_content_some hc, if_pos hch, if_pos hw]
  rw [h1]
  refine ⟨rfl, rfl, rfl, rfl, ?_, hspec.2.2.2.1⟩
  intro p hp hcont
  rcases hcont with ⟨i, _, hocc⟩
  exact hspec.2.2.1 p hp i hocc

theorem C1_witness :
    ((⟨"S.unity", some ('x' :: (List.replicate 32 'a' ++ ['y'])), true⟩ : TargetFile).content =
      some ('x' :: (List.replicate 32 'a' ++ ['y']))) ∧
    ((⟨"S.unity", some ('x' :: (List.replicate 32 'a' ++ ['y'])), true⟩ : TargetFile).writable =
      true) ∧
    WFmap [(List.replicate 32 'a', List.replicate 32 'b')] ∧
    (∀ p ∈ [(List.replicate 32 'a', List.replicate 32 'b')],
      HisoP p.1 ('x' :: (List.replicate 32 'a' ++ ['y']))) ∧
    (∃ p ∈ [(List.replicate 32 'a', List.replicate 32 'b')],
      Contains p.1 ('x' :: (List.replicate 32 'a' ++ ['y']))) ∧
    ((replace_guids_in_file [(List.replicate 32 'a', List.replicate 32 'b')]
        ⟨"S.unity", some ('x' :: (List.replicate 32 'a' ++ ['y'])), true⟩).modified = true ∧
      (replace_guids_in_file [(List.replicate 32 'a', List.replicate 32 'b')]
        ⟨"S.unity", some ('x' :: (List.replicate 32 'a' ++ ['y'])), true⟩).wrote = true ∧
      (replace_guids_in_file [(List.replicate 32 'a', List.replicate 32 'b')]
        ⟨"S.unity", some ('x' :: (List.replicate 32 'a' ++ ['y'])), true⟩).file =
        { (⟨"S.unity", some ('x' :: (List.replicate 32 'a' ++ ['y'])), true⟩ : TargetFile) with
          content := some (applyMappings [(List.replicate 32 'a', List.replicate 32 'b')]
            ('x' :: (List.replicate 32 'a' ++ ['y']))) } ∧
      (replace_guids_in_file [(List.replicate 32 'a', List.replicate 32 'b')]
        ⟨"S.unity", some ('x' :: (List.replicate 32 'a' ++ ['y'])), true⟩).log =
        [LogEntry.updatedFile "S.unity"] ∧
      (∀ p ∈ [(List.replicate 32 'a', List.replicate 32 'b')],
        ¬ Contains p.1 (applyMappings [(List.replicate 32 'a', List.replicate 32 'b')]
          ('x' :: (List.replicate 32 'a' ++ ['y'])))) ∧
      (∀ p ∈ [(List.replicate 32 'a', List.replicate 32 'b')], ∀ i,
        occursAt p.1 ('x' :: (List.replicate 32 'a' ++ ['y'])) i →
        occursAt p.2 (applyMappings [(List.replicate 32 'a', List.replicate 32 'b')]
          ('x' :: (List.replicate 32 'a' ++ ['y']))) i)) :=
  ⟨rfl, rfl, by decide, by decide, by decide,
    C1_replace_replaces_all [(List.replicate 32 'a', List.replicate 32 'b')]
      ⟨"S.unity", some ('x' :: (List.replicate 32 'a' ++ ['y'])), true⟩
      ('x' :: (List.replicate 32 'a' ++ ['y'])) rfl rfl (by decide) (by decide) (by decide)⟩

/-- Claim C3 counterexample: a single pair satisfying the claim's
non-interference assumption (no old GUID is a new GUID of another pair),
yet the second run of the substitution engine modifies the file again:
the first run turns 33 `a`s into `b` followed by 32 `a`s, which still
contains the old GUID. -/
theorem C3_counterexample :
    (∀ p ∈ [(List.replicate 32 'a', 'b' :: List.replicate 31 'a')],
      ∀ q ∈ [(List.replicate 32 'a', 'b' :: List.replicate 31 'a')], p ≠ q → p.1 ≠ q.2) ∧
    (runSubstitution [(List.replicate 32 'a', 'b' :: List.replicate 31 'a')]
        (runSubstitution [(List.replicate 32 'a', 'b' :: List.replicate 31 'a')]
          [⟨"Scene.unity", some (List.replicate 33 'a'), true⟩]).files).modified = 1 := by
  decide

/-- Claim C3 (amended): for a well-formed, non-interfering mapping table
whose old GUIDs occur only isolated in every readable target's content,
a second run of the substitution engine over the output of the first
leaves every file unchanged and reports zero modifications. -/
theorem C3_second_run_idempotent (M : List (Chars × Chars)) (targets : List TargetFile)
    (hwf : WFmap M)
    (hiso : ∀ f ∈ targets, ∀ cs, f.content = some cs → ∀ p ∈ M, HisoP p.1 cs) :
    (runSubstitution M (runSubstitution M targets).files).modified = 0 ∧
    (runSubstitution M (runSubstitution M targets).files).files =
      (runSubstitution M targets).files ∧
    (runSubstitution M (runSubstitution M targets).files).processed =
      (runSubstitution M targets).processed := by
  have hper : ∀ f ∈ targets,
      (replace_guids_in_file M (replace_guids_in_file M f).file).modified = false ∧
      (replace_guids_in_file M (replace_guids_in_file M f).file).file =
        (replace_guids_in_file M f).file :=
    fun f hf => replace_idem hwf f (fun cs hcs => hiso f hf cs hcs)
  have hchar := runSubstitution_eq M targets
  have hchar2 := runSubstitution_eq M (runSubstitution M targets).files
  refine ⟨?_, ?_, ?_⟩
  · rw [hchar2, hchar]
    dsimp only
    rw [List.length_eq_zero, List.filter_eq_nil_iff]
    intro f2 hf2
    rw [List.mem_map] at hf2
    obtain ⟨f, hf, rfl⟩ := hf2
    rw [(hper f hf).1]
    simp
  · rw [hchar2, hchar]
    dsimp only
    have hmap : ∀ l : List TargetFile,
        (∀ x ∈ l, (replace_guids_in_file M x).file = x) →
        l.map (fun f2 => (replace_guids_in_file M f2).file) = l := by
      intro l
      induction l with
      | nil => intro _; rfl
      | cons x l ihl =>
        intro hx
        rw [List.map_cons, hx x (List.mem_cons_self _ _),
          ihl (fun y hy => hx y (List.mem_cons_of_mem _ hy))]
    apply hmap
    intro x hx
    rw [List.mem_map] at hx
    obtain ⟨f, hf, rfl⟩ := hx
    exact (hper f hf).2
  · rw [hchar2, hchar]
    simp

theorem C3_witness :
    WFmap [(List.replicate 32 'a', List.replicate 32 'b')] ∧
    (∀ f ∈ [(⟨"S.unity", some ('x' :: (List.replicate 32 'a' ++ ['y'])), true⟩ : TargetFile)],
      ∀ cs, f.content = some cs →
        ∀ p ∈ [(List.replicate 32 'a', List.replicate 32 'b')], HisoP p.1 cs) ∧
    ((runSubstitution [(List.replicate 32 'a', List.replicate 32 'b')]
        (runSubstitution [(List.replicate 32 'a', List.replicate 32 'b')]
          [⟨"S.unity", some ('x' :: (List.replicate 32 'a' ++ ['y'])), true⟩]).files).modified = 0 ∧
      (runSubstitution [(List.replicate 32 'a', List.replicate 32 'b')]
        (runSubstitution [(List.replicate 32 'a', List.replicate 32 'b')]
          [⟨"S.unity", some ('x' :: (List.replicate 32 'a' ++ ['y'])), true⟩]).files).files =
        (runSubstitution [(List.replicate 32 'a', List.replicate 32 'b')]
          [⟨"S.unity", some ('x' :: (List.replicate 32 'a' ++ ['y'])), true⟩]).files ∧
      (runSubstitution [(List.replicate 32 'a', List.replicate 32 'b')]
        (runSubstitution [(List.replicate 32 'a', List.replicate 32 'b')]
          [⟨"S.unity", some ('x' :: (List.replicate 32 'a' ++ ['y'])), true⟩]).files).processed =
        (runSubstitution [(List.replicate 32 'a', List.replicate 32 'b')]
          [⟨"S.unity", some ('x' :: (List.replicate 32 'a' ++ ['y'])), true⟩]).processed) :=
  ⟨by decide, by decide,
    C3_second_run_idempotent [(List.replicate 32 'a', List.replicate 32 'b')]
      [⟨"S.unity", some ('x' :: (List.replicate 32 'a' ++ ['y'])), true⟩]
      (by decide) (by decide)⟩

/-- Claim C2 counterexample: two reference descriptors share the stem
`Foo`; the build only ever consults the first one found, so for the pair
(source, second reference) — same stem, both extractions succeed — the
mapping table does not contain source-GUID → that reference's GUID. -/
theorem C2_counterexample :
    (⟨"ref/Y/Foo.meta", "Foo", some ("guid: cccccccccccccccccccccccccccccccc").data⟩ :
        MetaFile).stem =
      (⟨"src/Foo.meta", "Foo", some ("guid: aaaaaaaaaaaaaaaaaaaaaaaaaaaaaaaa").data⟩ :
        MetaFile).stem ∧
    (extract_guid_from_meta
      ⟨"src/Foo.meta", "Foo", some ("guid: aaaaaaaaaaaaaaaaaaaaaaaaaaaaaaaa").data⟩).1 =
      some (List.replicate 32 'a') ∧
    (extract_guid_from_meta
      ⟨"ref/Y/Foo.meta", "Foo", some ("guid: cccccccccccccccccccccccccccccccc").data⟩).1 =
      some (List.replicate 32 'c') ∧
    dictLookup (build_guid_mappings
        [⟨"src/Foo.meta", "Foo", some ("guid: aaaaaaaaaaaaaaaaaaaaaaaaaaaaaaaa").data⟩]
        [⟨"ref/X/Foo.meta", "Foo", some ("guid: bbbbbbbbbbbbbbbbbbbbbbbbbbbbbbbb").data⟩,
          ⟨"ref/Y/Foo.meta", "Foo", some ("guid: cccccccccccccccccccccccccccccccc").data⟩]).1
      (List.replicate 32 'a') ≠ some (List.replicate 32 'c') := by
  decide

/-- Claim C2 (amended): for every source descriptor `d` whose stem is
matched — by the FIRST reference descriptor found in reference-traversal
order — with both extractions succeeding, the mapping table after the build
contains an entry keyed by `d`'s GUID; and if no source descriptor
processed after `d` records the same GUID, the entry's value is that first
reference descriptor's GUID. -/
theorem C2_mapping_recorded (am l1 l2 : List MetaFile) (d a2 : MetaFile) (g v : Chars)
    (hf : am.find? (fun m => m.stem == d.stem) = some a2)
    (hd : (extract_guid_from_meta d).1 = some g)
    (ha : (extract_guid_from_meta a2).1 = some v) :
    (dictLookup (build_guid_mappings (l1 ++ d :: l2) am).1 g).isSome = true ∧
    ((∀ d2 ∈ l2, ∀ v2, corrOf am d2 ≠ some (g, v2)) →
      dictLookup (build_guid_mappings (l1 ++ d :: l2) am).1 g = some v) := by
  have hc : corrOf am d = some (g, v) := by
    rw [corrOf, hf]
    simp [hd, ha]
  have hfst : (build_guid_mappings (l1 ++ d :: l2) am).1 =
      (l1 ++ d :: l2).foldl (corrStep am) [] := by
    rw [build_guid_mappings, build_guid_mappings_fst]
  rw [hfst, List.foldl_append, List.foldl_cons]
  have hstep : dictLookup (corrStep am (l1.foldl (corrStep am) []) d) g = some v := by
    rw [corrStep, hc]
    exact dictLookup_insert_self _ _ _
  constructor
  · apply corr_fold_preserve_some
    rw [hstep]
    rfl
  · intro hno
    exact corr_fold_no_write am l2 _ g v hstep hno

theorem C2_witness :
    (List.find? (fun m => m.stem == "Foo")
        [(⟨"ref/Foo.meta", "Foo", some ("guid: bbbbbbbbbbbbbbbbbbbbbbbbbbbbbbbb").data⟩ :
          MetaFile)] =
      some ⟨"ref/Foo.meta", "Foo", some ("guid: bbbbbbbbbbbbbbbbbbbbbbbbbbbbbbbb").data⟩ ∧
    (extract_guid_from_meta
      ⟨"src/Foo.meta", "Foo", some ("guid: aaaaaaaaaaaaaaaaaaaaaaaaaaaaaaaa").data⟩).1 =
      some (List.replicate 32 'a') ∧
    (extract_guid_from_meta
      ⟨"ref/Foo.meta", "Foo", some ("guid: bbbbbbbbbbbbbbbbbbbbbbbbbbbbbbbb").data⟩).1 =
      some (List.replicate 32 'b')) ∧
    ((dictLookup (build_guid_mappings
        ([] ++ ⟨"src/Foo.meta", "Foo", some ("guid: aaaaaaaaaaaaaaaaaaaaaaaaaaaaaaaa").data⟩ ::
          [])
        [⟨"ref/Foo.meta", "Foo", some ("guid: bbbbbbbbbbbbbbbbbbbbbbbbbbbbbbbb").data⟩]).1
      (List.replicate 32 'a')).isSome = true ∧
    ((∀ d2 ∈ ([] : List MetaFile), ∀ v2,
        corrOf [⟨"ref/Foo.meta", "Foo", some ("guid: bbbbbbbbbbbbbbbbbbbbbbbbbbbbbbbb").data⟩]
          d2 ≠ some (List.replicate 32 'a', v2)) →
      dictLookup (build_guid_mappings
        ([] ++ ⟨"src/Foo.meta", "Foo", some ("guid: aaaaaaaaaaaaaaaaaaaaaaaaaaaaaaaa").data⟩ ::
          [])
        [⟨"ref/Foo.meta", "Foo", some ("guid: bbbbbbbbbbbbbbbbbbbbbbbbbbbbbbbb").data⟩]).1
      (List.replicate 32 'a') = some (List.replicate 32 'b'))) :=
  ⟨⟨by decide, by decide, by decide⟩,
    C2_mapping_recorded
      [⟨"ref/Foo.meta", "Foo", some ("guid: bbbbbbbbbbbbbbbbbbbbbbbbbbbbbbbb").data⟩] [] []
      ⟨"src/Foo.meta", "Foo", some ("guid: aaaaaaaaaaaaaaaaaaaaaaaaaaaaaaaa").data⟩
      ⟨"ref/Foo.meta", "Foo", some ("guid: bbbbbbbbbbbbbbbbbbbbbbbbbbbbbbbb").data⟩
      (List.replicate 32 'a') (List.replicate 32 'b')
      (by decide) (by decide) (by decide)⟩

/-- Claim C10: when two source descriptors, processed in this order, yield
the same old GUID with successful correlations to (possibly different)
reference GUIDs, and no later source descriptor records that GUID again,
the final table maps the GUID to the reference GUID of the
last-processed source descriptor. -/
theorem C10_last_writer_wins (am l1 l2 l3 : List MetaFile) (d1 d2 : MetaFile)
    (g v1 v2 : Chars) (h1 : corrOf am d1 = some (g, v1)) (h2 : corrOf am d2 = some (g, v2))
    (hno : ∀ d3 ∈ l3, ∀ v3, corrOf am d3 ≠ some (g, v3)) :
    dictLookup (build_guid_mappings (l1 ++ d1 :: (l2 ++ d2 :: l3)) am).1 g = some v2 := by
  rw [build_guid_mappings, build_guid_mappings_fst, List.foldl_append, List.foldl_cons,
    List.foldl_append, List.foldl_cons]
  apply corr_fold_no_write am l3 _ g v2 ?_ hno
  rw [corrStep, h2]
  exact dictLookup_insert_self _ _ _

theorem C10_witness :
    (corrOf
        [⟨"r/Foo.meta", "Foo", some ("guid: bbbbbbbbbbbbbbbbbbbbbbbbbbbbbbbb").data⟩,
          ⟨"r/Bar.meta", "Bar", some ("guid: cccccccccccccccccccccccccccccccc").data⟩]
        ⟨"s/Foo.meta", "Foo", some ("guid: aaaaaaaaaaaaaaaaaaaaaaaaaaaaaaaa").data⟩ =
      some (List.replicate 32 'a', List.replicate 32 'b') ∧
    corrOf
        [⟨"r/Foo.meta", "Foo", some ("guid: bbbbbbbbbbbbbbbbbbbbbbbbbbbbbbbb").data⟩,
          ⟨"r/Bar.meta", "Bar", some ("guid: cccccccccccccccccccccccccccccccc").data⟩]
        ⟨"s/Bar.meta", "Bar", some ("guid: aaaaaaaaaaaaaaaaaaaaaaaaaaaaaaaa").data⟩ =
      some (List.replicate 32 'a', List.replicate 32 'c')) ∧
    dictLookup (build_guid_mappings
        ([] ++ ⟨"s/Foo.meta", "Foo", some ("guid: aaaaaaaaaaaaaaaaaaaaaaaaaaaaaaaa").data⟩ ::
          ([] ++ ⟨"s/Bar.meta", "Bar", some ("guid: aaaaaaaaaaaaaaaaaaaaaaaaaaaaaaaa").data⟩ ::
            []))
        [⟨"r/Foo.meta", "Foo", some ("guid: bbbbbbbbbbbbbbbbbbbbbbbbbbbbbbbb").data⟩,
          ⟨"r/Bar.meta", "Bar", some ("guid: cccccccccccccccccccccccccccccccc").data⟩]).1
      (List.replicate 32 'a') = some (List.replicate 32 'c') :=
  ⟨⟨by decide, by decide⟩,
    C10_last_writer_wins
      [⟨"r/Foo.meta", "Foo", some ("guid: bbbbbbbbbbbbbbbbbbbbbbbbbbbbbbbb").data⟩,
        ⟨"r/Bar.meta", "Bar", some ("guid: cccccccccccccccccccccccccccccccc").data⟩]
      [] [] []
      ⟨"s/Foo.meta", "Foo", some ("guid: aaaaaaaaaaaaaaaaaaaaaaaaaaaaaaaa").data⟩
      ⟨"s/Bar.meta", "Bar", some ("guid: aaaaaaaaaaaaaaaaaaaaaaaaaaaaaaaa").data⟩
      (List.replicate 32 'a') (List.replicate 32 'b') (List.replicate 32 'c')
      (by decide) (by decide) (by simp)⟩

/-- Claim C8: a read failure (or a write failure on a file whose content
would change) affects only that file: `replace_guids_in_file` returns
`False`, logs the error, leaves the file unchanged, and the loop counts the
file as processed but not modified while all other files are processed
normally. -/
theorem C8_per_file_error_isolated (M : List (Chars × Chars)) (a b : List TargetFile)
    (f : TargetFile)
    (h : f.content = none ∨
      (∃ cs, f.content = some cs ∧ applyMappings M cs ≠ cs ∧ f.writable = false)) :
    replace_guids_in_file M f = ⟨f, false, [LogEntry.errorUpdating f.path], false⟩ ∧
    runSubstitution M (a ++ f :: b) =
      ⟨(runSubstitution M a).processed + 1 + (runSubstitution M b).processed,
        (runSubstitution M a).modified + (runSubstitution M b).modified,
        (runSubstitution M a).files ++ f :: (runSubstitution M b).files,
        (runSubstitution M a).log ++ [LogEntry.errorUpdating f.path] ++
          (runSubstitution M b).log,
        (runSubstitution M a).wrotePaths ++ (runSubstitution M b).wrotePaths⟩ := by
  have hr : replace_guids_in_file M f = ⟨f, false, [LogEntry.errorUpdating f.path], false⟩ := by
    rcases h with h | ⟨cs, hc, hch, hw⟩
    · exact replace_content_none h
    · rw [replace_content_some hc, if_pos hch, if_neg (by simp [hw])]
  refine ⟨hr, ?_⟩
  rw [runSubstitution_eq, runSubstitution_eq, runSubstitution_eq]
  simp only [SubstOut.mk.injEq, List.filter_append, List.map_append, List.flatten_append,
    List.filter_cons, List.map_cons, List.flatten_cons, List.length_append, List.length_cons,
    List.length_nil, hr]
  refine ⟨by omega, by simp, by simp, by simp, by simp⟩

theorem C8_witness :
    ((⟨"broken.mat", none, true⟩ : TargetFile).content = none ∨
      (∃ cs, (⟨"broken.mat", none, true⟩ : TargetFile).content = some cs ∧
        applyMappings [(List.replicate 32 'a', List.replicate 32 'b')] cs ≠ cs ∧
        (⟨"broken.mat", none, true⟩ : TargetFile).writable = false)) ∧
    (replace_guids_in_file [(List.replicate 32 'a', List.replicate 32 'b')]
        ⟨"broken.mat", none, true⟩ =
      ⟨⟨"broken.mat", none, true⟩, false, [LogEntry.errorUpdating "broken.mat"], false⟩ ∧
    runSubstitution [(List.replicate 32 'a', List.replicate 32 'b')]
        ([⟨"ok1.mat", some ("hello").data, true⟩] ++ ⟨"broken.mat", none, true⟩ ::
          [⟨"ok2.mat", some (List.replicate 32 'a'), true⟩]) =
      ⟨(runSubstitution [(List.replicate 32 'a', List.replicate 32 'b')]
          [⟨"ok1.mat", some ("hello").data, true⟩]).processed + 1 +
        (runSubstitution [(List.replicate 32 'a', List.replicate 32 'b')]
          [⟨"ok2.mat", some (List.replicate 32 'a'), true⟩]).processed,
        (runSubstitution [(List.replicate 32 'a', List.replicate 32 'b')]
          [⟨"ok1.mat", some ("hello").data, true⟩]).modified +
        (runSubstitution [(List.replicate 32 'a', List.replicate 32 'b')]
          [⟨"ok2.mat", some (List.replicate 32 'a'), true⟩]).modified,
        (runSubstitution [(List.replicate 32 'a', List.replicate 32 'b')]
          [⟨"ok1.mat", some ("hello").data, true⟩]).files ++ ⟨"broken.mat", none, true⟩ ::
        (runSubstitution [(List.replicate 32 'a', List.replicate 32 'b')]
          [⟨"ok2.mat", some (List.replicate 32 'a'), true⟩]).files,
        (runSubstitution [(List.replicate 32 'a', List.replicate 32 'b')]
          [⟨"ok1.mat", some ("hello").data, true⟩]).log ++
        [LogEntry.errorUpdating "broken.mat"] ++
        (runSubstitution [(List.replicate 32 'a', List.replicate 32 'b')]
          [⟨"ok2.mat", some (List.replicate 32 'a'), true⟩]).log,
        (runSubstitution [(List.replicate 32 'a', List.replicate 32 'b')]
          [⟨"ok1.mat", some ("hello").data, true⟩]).wrotePaths ++
        (runSubstitution [(List.replicate 32 'a', List.replicate 32 'b')]
          [⟨"ok2.mat", some (List.replicate 32 'a'), true⟩]).wrotePaths⟩) :=
  ⟨Or.inl rfl,
    C8_per_file_error_isolated [(List.replicate 32 'a', List.replicate 32 'b')]
      [⟨"ok1.mat", some ("hello").data, true⟩]
      [⟨"ok2.mat", some (List.replicate 32 'a'), true⟩]
      ⟨"broken.mat", none, true⟩ (Or.inl rfl)⟩

/-- Claim C9: substitution is literal and case-sensitive.  Every GUID
recorded by the build phase (key and value) is a 32-character
lowercase-hex string; a string differing from a GUID at any position (for
example an uppercase or mixed-case variant) never forms an occurrence of
that GUID at the same position; and a file whose content holds no literal
occurrence of any mapping key — in particular one whose GUIDs appear only
in non-lowercase spelling — is left byte-identical and reported
unmodified. -/
theorem C9_case_sensitive :
    (∀ (dm am : List MetaFile), ∀ p ∈ (build_guid_mappings dm am).1,
      p.1.length = 32 ∧ p.1.all isLowerHex = true ∧ p.2.length = 32 ∧
        p.2.all isLowerHex = true) ∧
    (∀ (g v : Chars), g.length = v.length →
      (∃ (j : ℕ) (dg dv : Char), g[j]? = some dg ∧ v[j]? = some dv ∧ dg ≠ dv) →
      ∀ (cs : Chars) (i : ℕ), occursAt v cs i → ¬ occursAt g cs i) ∧
    (∀ (M : List (Chars × Chars)) (f : TargetFile) (cs : Chars), f.content = some cs →
      (∀ p ∈ M, ¬ Contains p.1 cs) → replace_guids_in_file M f = ⟨f, false, [], false⟩) := by
  refine ⟨?_, ?_, ?_⟩
  · intro dm am p hp
    rw [build_guid_mappings, build_guid_mappings_fst] at hp
    refine corr_fold_entries am
      (fun p2 => p2.1.length = 32 ∧ p2.1.all isLowerHex = true ∧ p2.2.length = 32 ∧
        p2.2.all isLowerHex = true) ?_ dm [] (by simp) p hp
    intro d p2 hc
    obtain ⟨g2, v2⟩ := p2
    obtain ⟨a2, _, hd2, ha2⟩ := corrOf_spec hc
    obtain ⟨hl1, hx1⟩ := extract_fst_shape hd2
    obtain ⟨hl2, hx2⟩ := extract_fst_shape ha2
    exact ⟨hl1, hx1, hl2, hx2⟩
  · intro g v hlen hdiff cs i hv hg
    have heq := occursAt_unique hg hv hlen
    rcases hdiff with ⟨j, dg, dv, hgj, hvj, hne⟩
    rw [heq] at hgj
    rw [hgj] at hvj
    exact hne (by injection hvj)
  · intro M f cs hc h
    exact replace_no_occ hc h

theorem C9_witness :
    ((List.replicate 32 'a').length = ('A' :: List.replicate 31 'a').length ∧
      (∃ (j : ℕ) (dg dv : Char), (List.replicate 32 'a')[j]? = some dg ∧
        ('A' :: List.replicate 31 'a')[j]? = some dv ∧ dg ≠ dv) ∧
      (¬ occursAt (List.replicate 32 'a')
        ('x' :: ('A' :: List.replicate 31 'a' ++ ['y'])) 1) ∧
      occursAt ('A' :: List.replicate 31 'a')
        ('x' :: ('A' :: List.replicate 31 'a' ++ ['y'])) 1) ∧
    (∀ p ∈ [(List.replicate 32 'a', List.replicate 32 'b')],
      ¬ Contains p.1 ('x' :: ('A' :: List.replicate 31 'a' ++ ['y']))) ∧
    replace_guids_in_file [(List.replicate 32 'a', List.replicate 32 'b')]
        ⟨"m.mat", some ('x' :: ('A' :: List.replicate 31 'a' ++ ['y'])), true⟩ =
      ⟨⟨"m.mat", some ('x' :: ('A' :: List.replicate 31 'a' ++ ['y'])), true⟩,
        false, [], false⟩ :=
  ⟨⟨by decide, ⟨0, 'a', 'A', by decide, by decide, by decide⟩,
      C9_case_sensitive.2.1 (List.replicate 32 'a') ('A' :: List.replicate 31 'a')
        (by decide) ⟨0, 'a', 'A', by decide, by decide, by decide⟩
        ('x' :: ('A' :: List.replicate 31 'a' ++ ['y'])) 1 (by decide),
      by decide⟩,
    by decide,
    C9_case_sensitive.2.2 [(List.replicate 32 'a', List.replicate 32 'b')]
      ⟨"m.mat", some ('x' :: ('A' :: List.replicate 31 'a' ++ ['y'])), true⟩
      ('x' :: ('A' :: List.replicate 31 'a' ++ ['y'])) rfl (by decide)⟩
